import Mathlib

/-!
# ecr-optimizer backend: registry inventory, ranking, statistics and bulk deletion

A shallow embedding of `backend/main.go`.

* The registry client (`ecrClient`) and the wall clock are an environment `Env`
  whose answers may depend on everything the handler has done so far: every
  client call and every clock reading is appended to a log of `Event`s, and the
  environment answers as a function of that log.
* A Go `error` is the text of its message; a call that may fail returns `Except String _`.
* The unbounded `for { ... }` pagination loops take a fuel argument and return
  `none` when it runs out; handlers return `Option`.
* `time.Time` is an instant counted in nanoseconds from the zero time. `AddDate` belongs
  to the environment, since it follows the calendar of the process's time zone;
  `Time.AddDays` is the one of UTC, with the 64-bit arithmetic of `time.Date`.
* The client validates the parameters of a call before it sends a request
  (`DescribeImagesInput.Validate`); `Env.ValidatesParams` says that an environment does.
* `int64` sums wrap around (`wrapInt64`); slice lengths and counters are natural numbers.
* `log.Printf` lines produce no observable result and are left out.
* Pointer fields that the code dereferences without a nil check (digest, size and push
  time of an image detail, a repository name, the image id of a failure) are plain fields.
-/

set_option maxRecDepth 100000

namespace EcrOptimizer

/-! ## Time -/

/-- Go `time.Time`: an instant, in nanoseconds since the zero time. -/
abbrev Time := Int

/-- Go `time.Duration`, in nanoseconds. -/
abbrev Duration := Int

/-- Go `time.Hour`. -/
def Hour : Duration := 3600 * 1000000000

/-- Go `Time.IsZero`. -/
def Time.IsZero (t : Time) : Bool := t == 0

/-- Go `Time.Before`. -/
def Time.Before (t u : Time) : Bool := decide (t < u)

/-- Go `Time.After`. -/
def Time.After (t u : Time) : Bool := decide (t > u)

/-- Go `Time.Add`. -/
def Time.Add (t : Time) (d : Duration) : Time := t + d

/-! ## Machine integers -/

/-- Two's-complement reduction of an integer to the `int64` range. -/
def wrapInt64 (x : Int) : Int := (x + 2 ^ 63) % 2 ^ 64 - 2 ^ 63

/-- Go `t.AddDate(0, 0, days)` for a time in the UTC location. `AddDate` adds `days` to
the day of the month and hands the date to `time.Date`, which turns it back into a count
of seconds in 64-bit arithmetic: the seconds since the zero time move by `days * 86400`
and wrap around in the `int64` range; the nanoseconds within the second stay. -/
def Time.AddDays (t : Time) (days : Int) : Time :=
  wrapInt64 (t / 1000000000 + days * 86400) * 1000000000 + t % 1000000000

/-! ## Data model (main.go 21-52, 104-115) -/

structure ImageInfo where
  RepositoryName : String
  ImageTag : String
  ImageDigest : String
  ImageSize : Int
  ImagePushedAt : Time
  ImagePullCount : Int
  LastPullDate : Option Time
deriving DecidableEq, Repr

/-- The zero value of `ImageInfo`, as produced by `make`. -/
def ImageInfo.zero : ImageInfo := ⟨"", "", "", 0, 0, 0, none⟩

structure DeleteRequest where
  RepositoryName : String
  ImageDigests : List String
deriving DecidableEq, Repr

structure DeleteByDateRequest where
  RepositoryName : String
  DaysOld : Int
  ImageDigests : List String
deriving DecidableEq, Repr

structure RepositoryStats where
  Name : String
  Size : Int
  ImageCount : Nat
deriving DecidableEq, Repr

structure GlobalStats where
  TotalRepositories : Nat
  TotalImages : Nat
  TotalSize : Int
  TopRepositoriesBySize : List RepositoryStats
deriving DecidableEq, Repr

/-- The zero value of `GlobalStats`. -/
def GlobalStats.zero : GlobalStats := ⟨0, 0, 0, []⟩

/-- The cache `globalStatsCache` without its lock. -/
structure cachedGlobalStats where
  stats : GlobalStats
  expiresAt : Time
deriving DecidableEq, Repr

/-- The initial value `&cachedGlobalStats{}`. -/
def cachedGlobalStats.zero : cachedGlobalStats := ⟨GlobalStats.zero, 0⟩

/-! ## Registry client types (aws-sdk-go `service/ecr`) -/

structure Repository where
  RepositoryName : String
deriving DecidableEq, Repr

structure DescribeRepositoriesInput where
  MaxResults : Option Int
  NextToken : Option String
deriving DecidableEq, Repr

structure DescribeRepositoriesOutput where
  Repositories : List Repository
  NextToken : Option String
deriving DecidableEq, Repr

structure ImageDetail where
  ImageDigest : String
  ImageSizeInBytes : Int
  ImagePushedAt : Time
  ImageTags : List (Option String)
  LastRecordedPullTime : Option Time
deriving DecidableEq, Repr

structure DescribeImagesInput where
  RepositoryName : Option String
  MaxResults : Option Int
  NextToken : Option String
deriving DecidableEq, Repr

structure DescribeImagesOutput where
  ImageDetails : List ImageDetail
  NextToken : Option String
deriving DecidableEq, Repr

structure ImageIdentifier where
  ImageDigest : Option String
  ImageTag : Option String
deriving DecidableEq, Repr

structure ImageFailure where
  ImageId : ImageIdentifier
  FailureCode : Option String
  FailureReason : Option String
deriving DecidableEq, Repr

structure BatchDeleteImageInput where
  RepositoryName : Option String
  ImageIds : List ImageIdentifier
deriving DecidableEq, Repr

structure BatchDeleteImageOutput where
  ImageIds : List ImageIdentifier
  Failures : List ImageFailure
deriving DecidableEq, Repr

/-- The text of an aws-sdk-go `request.ErrInvalidParams` with the given parameter errors. -/
def invalidParamsError (errs : List String) : String :=
  "InvalidParameter: " ++ toString errs.length ++ " validation error(s) found.\n" ++
    String.join (errs.map (fun e => "- " ++ e ++ "\n"))

/-- The aws-sdk-go method `(*DescribeImagesInput).Validate`, on the fields the handlers
set: `MaxResults` is at least 1 and `RepositoryName` is present and at least 2 bytes
long. The result is the text of the error, `none` for a nil error. -/
def DescribeImagesInput.Validate (s : DescribeImagesInput) : Option String :=
  let errs : List String :=
    (match s.MaxResults with
      | some m =>
        if m < 1 then ["minimum field value of 1, DescribeImagesInput.MaxResults."] else []
      | none => []) ++
    (match s.RepositoryName with
      | none => ["missing required field, DescribeImagesInput.RepositoryName."]
      | some name =>
        if name.utf8ByteSize < 2 then
          ["minimum field size of 2, DescribeImagesInput.RepositoryName."]
        else [])
  if errs.isEmpty then none else some (invalidParamsError errs)

/-! ## Environment -/

/-- One interaction of a handler with the outside world. -/
inductive Event where
  | DescribeRepositories (input : DescribeRepositoriesInput)
      (result : Except String DescribeRepositoriesOutput)
  | DescribeImages (input : DescribeImagesInput) (result : Except String DescribeImagesOutput)
  | BatchDeleteImage (input : BatchDeleteImageInput)
      (result : Except String BatchDeleteImageOutput)
  | Now (t : Time)

/-- True for the events that are calls of the registry client. -/
def Event.isRemote : Event → Bool
  | .DescribeRepositories _ _ => true
  | .DescribeImages _ _ => true
  | .BatchDeleteImage _ _ => true
  | .Now _ => false

/-- True for the client calls that lead to a request to the registry. A `DescribeImages`
call whose input fails the parameter validation of the client is answered by the client
itself and sends nothing; the validation of the other two operations is not modelled and
each of their calls counts as sent. -/
def Event.sent : Event → Bool
  | .DescribeRepositories _ _ => true
  | .DescribeImages input _ => input.Validate.isNone
  | .BatchDeleteImage _ _ => true
  | .Now _ => false

/-- The outside world: the registry client and the clock, each answering as a function of
the interactions so far, and the calendar of the process's time zone (`Time.AddDate`
moves along the local calendar, so the length of a day is the environment's). -/
structure Env where
  DescribeRepositories : List Event → DescribeRepositoriesInput →
    Except String DescribeRepositoriesOutput
  DescribeImages : List Event → DescribeImagesInput → Except String DescribeImagesOutput
  BatchDeleteImage : List Event → BatchDeleteImageInput → Except String BatchDeleteImageOutput
  Now : List Event → Time
  AddDate : Time → Int → Int → Int → Time

/-- The client validates the parameters of `DescribeImages` before it sends a request, as
aws-sdk-go does unless `DisableParamValidation` is set (`init`, main.go 56-64, does not
set it): an input that fails `Validate` is answered with the validation error. -/
def Env.ValidatesParams (E : Env) : Prop :=
  ∀ (log : List Event) (input : DescribeImagesInput) (err : String),
    input.Validate = some err → E.DescribeImages log input = .error err

/-- Go `aws.StringValue`. -/
def StringValue (s : Option String) : String := s.getD ""

/-! ## HTTP responses (main.go 42-44, 591-599) -/

structure ErrorResponse where
  Error : String
deriving DecidableEq, Repr

/-- The values the handlers hand to `respondJSON`. -/
inductive Payload where
  | error (e : ErrorResponse)
  | repositories (names : List String)
  | globalStats (stats : GlobalStats)
  | images (images : List ImageInfo)
  | deletion (message : String) (deleted : Nat) (errors : Option (List String))
deriving DecidableEq, Repr

structure Response where
  status : Nat
  body : Payload
deriving DecidableEq, Repr

def StatusOK : Nat := 200
def StatusPartialContent : Nat := 206
def StatusBadRequest : Nat := 400
def StatusInternalServerError : Nat := 500

def respondJSON (status : Nat) (data : Payload) : Response := ⟨status, data⟩

def respondError (status : Nat) (message : String) : Response :=
  respondJSON status (.error ⟨message⟩)

/-! ## fetchImages (main.go 492-552) -/

/-- The body of the loop over `result.ImageDetails` (main.go 513-543). -/
def imageInfoOf (repoName : String) (img : ImageDetail) : ImageInfo :=
  let imageInfo : ImageInfo :=
    ⟨repoName, "", img.ImageDigest, img.ImageSizeInBytes, img.ImagePushedAt, 0, none⟩
  let imageInfo : ImageInfo :=
    match img.ImageTags with
    | some tag :: _ => { imageInfo with ImageTag := tag }
    | _ => imageInfo
  let imageInfo : ImageInfo :=
    match img.LastRecordedPullTime with
    | some lastPull => { imageInfo with LastPullDate := some lastPull }
    | none => { imageInfo with LastPullDate := some imageInfo.ImagePushedAt }
  { imageInfo with ImagePullCount := 0 }

/-- The pagination loop of `fetchImages`, with the loop variables `nextToken` and
`allImages` as arguments. -/
def fetchImagesLoop (E : Env) (repoName : String) :
    Nat → Option String → List ImageInfo → List Event →
      Option (Except String (List ImageInfo) × List Event)
  | 0, _, _, _ => none
  | fuel + 1, nextToken, allImages, log =>
    let describeInput : DescribeImagesInput := ⟨some repoName, some 100, nextToken⟩
    let result := E.DescribeImages log describeInput
    let log := log ++ [Event.DescribeImages describeInput result]
    match result with
    | .error err =>
      some (.error ("failed to describe images for repo " ++ repoName ++ ": " ++ err), log)
    | .ok result =>
      let allImages := allImages ++ result.ImageDetails.map (imageInfoOf repoName)
      match result.NextToken with
      | none => some (.ok allImages, log)
      | some t => fetchImagesLoop E repoName fuel (some t) allImages log

def fetchImages (E : Env) (fuel : Nat) (repoName : String) (log : List Event) :
    Option (Except String (List ImageInfo) × List Event) :=
  fetchImagesLoop E repoName fuel none [] log

/-! ## Go runtime: sort.Slice, slices, strconv.Atoi -/

/-- The requirement Go places on a `less` function: a strict weak ordering. -/
structure StrictWeakOrder {α : Type} (less : α → α → Bool) : Prop where
  irrefl : ∀ a, less a a = false
  trans : ∀ a b c, less a b = true → less b c = true → less a c = true
  negTrans : ∀ a b c, less a b = false → less b c = false → less a c = false

/-- Go `sort.Slice`, known by its contract only: the result is a rearrangement of the
slice (the order of equal elements is not fixed), and when `less` is a strict weak
ordering no later element is less than an earlier one. -/
structure SliceSorter where
  sort : {α : Type} → (α → α → Bool) → List α → List α
  perm : ∀ {α : Type} (less : α → α → Bool) (l : List α), (sort less l).Perm l
  sorted : ∀ {α : Type} (less : α → α → Bool) (l : List α), StrictWeakOrder less →
    (sort less l).Pairwise (fun a b => less b a = false)

/-- Go slice expression `l[i:j]`. -/
def slice {α : Type} (l : List α) (i j : Nat) : List α := (l.drop i).take (j - i)

/-- The backing arrays of the `[]ImageInfo` slices alive in a handler, by address. -/
structure SliceHeap where
  cells : List (List ImageInfo)

/-- The contents of the slice at address `r`. -/
def SliceHeap.read (h : SliceHeap) (r : Nat) : List ImageInfo := h.cells.getD r []

/-- Overwrites the contents of the slice at address `r`. -/
def SliceHeap.write (h : SliceHeap) (r : Nat) (v : List ImageInfo) : SliceHeap :=
  ⟨h.cells.set r v⟩

/-- Go `make([]ImageInfo, n)`: a fresh slice of `n` zero values. -/
def SliceHeap.make (h : SliceHeap) (n : Nat) : SliceHeap × Nat :=
  (⟨h.cells ++ [List.replicate n ImageInfo.zero]⟩, h.cells.length)

/-- Go `copy(dst, src)`: overwrites the first `min (len dst) (len src)` elements of `dst`. -/
def SliceHeap.copy (h : SliceHeap) (dst src : Nat) : SliceHeap :=
  let n := min (h.read dst).length (h.read src).length
  h.write dst ((h.read src).take n ++ (h.read dst).drop n)

/-- Go `sort.Slice(s, less)`, sorting the slice at address `r` in place. -/
def SliceHeap.sortSlice (S : SliceSorter) (h : SliceHeap) (r : Nat)
    (less : ImageInfo → ImageInfo → Bool) : SliceHeap :=
  h.write r (S.sort less (h.read r))

/-- Reads a run of decimal digits, most significant first. -/
def parseDigits : List Char → Nat → Option Nat
  | [], n => some n
  | ch :: rest, n =>
    if '0' ≤ ch ∧ ch ≤ '9' then parseDigits rest (n * 10 + (ch.toNat - 48)) else none

/-- Go `strconv.Atoi` with a 64-bit `int`: an optional sign followed by at least one
decimal digit, the value within the `int64` range; `none` stands for a non-nil error. -/
def Atoi (s : String) : Option Int :=
  match s.toList with
  | [] => none
  | c :: rest =>
    let neg := c == '-'
    let digits := if c == '-' || c == '+' then rest else c :: rest
    if digits.isEmpty then none
    else
      match parseDigits digits 0 with
      | none => none
      | some un =>
        if neg then (if un > 2 ^ 63 then none else some (-(un : Int)))
        else (if un ≥ 2 ^ 63 then none else some (un : Int))

/-! ## sortByLastPullTime, sortBySize (main.go 554-589) -/

/-- The `less` closure of `sortByLastPullTime` (main.go 561-575), on the two elements. -/
def lastPullLess (a b : ImageInfo) : Bool :=
  match a.LastPullDate, b.LastPullDate with
  | none, none => false
  | none, some _ => false
  | some _, none => true
  | some ta, some tb => Time.After ta tb

/-- The `less` closure of `sortBySize` (main.go 585-587), on the two elements. -/
def sizeLess (a b : ImageInfo) : Bool := decide (a.ImageSize > b.ImageSize)

/-- Takes the heap and the address of `images`; returns the heap afterwards and the
address of the returned slice. -/
def sortByLastPullTime (S : SliceSorter) (h : SliceHeap) (images : Nat) : SliceHeap × Nat :=
  let (h, sorted) := h.make (h.read images).length
  let h := h.copy sorted images
  let h := h.sortSlice S sorted lastPullLess
  (h, sorted)

/-- Takes the heap and the address of `images`; returns the heap afterwards and the
address of the returned slice. -/
def sortBySize (S : SliceSorter) (h : SliceHeap) (images : Nat) : SliceHeap × Nat :=
  let (h, sorted) := h.make (h.read images).length
  let h := h.copy sorted images
  let h := h.sortSlice S sorted sizeLess
  (h, sorted)

/-! ## listRepositories (main.go 73-102) -/

/-- The pagination loop over `DescribeRepositories`; it stands at main.go 77-99 and again,
word for word, at 137-159. The loop variables `nextToken` and `allRepos` are arguments;
an error result is the client's error, which either caller reports. -/
def describeRepositoriesLoop (E : Env) :
    Nat → Option String → List String → List Event →
      Option (Except String (List String) × List Event)
  | 0, _, _, _ => none
  | fuel + 1, nextToken, allRepos, log =>
    let describeInput : DescribeRepositoriesInput := ⟨some 100, nextToken⟩
    let result := E.DescribeRepositories log describeInput
    let log := log ++ [Event.DescribeRepositories describeInput result]
    match result with
    | .error err => some (.error err, log)
    | .ok result =>
      let allRepos := allRepos ++ result.Repositories.map (fun repo => repo.RepositoryName)
      match result.NextToken with
      | none => some (.ok allRepos, log)
      | some t => describeRepositoriesLoop E fuel (some t) allRepos log

def listRepositories (E : Env) (fuel : Nat) (log : List Event) :
    Option (Response × List Event) :=
  match describeRepositoriesLoop E fuel none [] log with
  | none => none
  | some (.error err, log) =>
    some (respondError StatusInternalServerError ("Failed to list repositories: " ++ err), log)
  | some (.ok allRepos, log) => some (respondJSON StatusOK (.repositories allRepos), log)

/-! ## getGlobalStats (main.go 117-219) -/

/-- The variables updated by the loop over `allRepos` (main.go 161-165). -/
structure Totals where
  totalImages : Nat
  totalSize : Int
  reposProcessed : Nat
  reposWithErrors : Nat
  repoStats : List RepositoryStats
deriving DecidableEq, Repr

/-- The inner loop over `images` (main.go 178-181), on the pair `(repoSize, totalSize)`. -/
def addSizes (images : List ImageInfo) (repoSize totalSize : Int) : Int × Int :=
  images.foldl
    (fun acc img => (wrapInt64 (acc.1 + img.ImageSize), wrapInt64 (acc.2 + img.ImageSize)))
    (repoSize, totalSize)

/-- The loop over `allRepos` (main.go 168-194). -/
def aggregateLoop (E : Env) (fuel : Nat) :
    List String → Totals → List Event → Option (Totals × List Event)
  | [], acc, log => some (acc, log)
  | repoName :: rest, acc, log =>
    match fetchImages E fuel repoName log with
    | none => none
    | some (.error _, log) =>
      aggregateLoop E fuel rest { acc with reposWithErrors := acc.reposWithErrors + 1 } log
    | some (.ok images, log) =>
      let imageCount := images.length
      let sizes := addSizes images 0 acc.totalSize
      aggregateLoop E fuel rest
        { totalImages := acc.totalImages + imageCount
          totalSize := sizes.2
          reposProcessed := acc.reposProcessed + 1
          reposWithErrors := acc.reposWithErrors
          repoStats := acc.repoStats ++ [⟨repoName, sizes.1, imageCount⟩] }
        log

/-- The `less` closure of the sort of `repoStats` (main.go 197-199). -/
def repoSizeLess (a b : RepositoryStats) : Bool := decide (a.Size > b.Size)

def getGlobalStats (E : Env) (S : SliceSorter) (fuel : Nat) (cache : cachedGlobalStats)
    (log : List Event) : Option (Response × cachedGlobalStats × List Event) :=
  -- `time.Now()` is read only when `expiresAt` is not the zero time
  let check : Bool × List Event :=
    if cache.expiresAt.IsZero then (false, log)
    else (Time.Before (E.Now log) cache.expiresAt, log ++ [Event.Now (E.Now log)])
  if check.1 then
    some (respondJSON StatusOK (.globalStats cache.stats), cache, check.2)
  else
    match describeRepositoriesLoop E fuel none [] check.2 with
    | none => none
    | some (.error err, log) =>
      some (respondError StatusInternalServerError ("Failed to list repositories: " ++ err),
        cache, log)
    | some (.ok allRepos, log) =>
      match aggregateLoop E fuel allRepos ⟨0, 0, 0, 0, []⟩ log with
      | none => none
      | some (acc, log) =>
        let repoStats := S.sort repoSizeLess acc.repoStats
        let stats : GlobalStats := ⟨allRepos.length, acc.totalImages, acc.totalSize, repoStats⟩
        let now := E.Now log
        let log := log ++ [Event.Now now]
        some (respondJSON StatusOK (.globalStats stats),
          ⟨stats, Time.Add now (12 * Hour)⟩, log)

/-! ## getImages, getMostDownloaded, getLargestImages (main.go 221-286) -/

/-- The query parameters read by the three image handlers: the values of
`r.URL.Query().Get("repository")` and `r.URL.Query().Get("limit")`, each the empty
string when the parameter is absent. -/
structure ImagesQuery where
  repository : String
  limit : String
deriving DecidableEq, Repr

def getImages (E : Env) (fuel : Nat) (q : ImagesQuery) (log : List Event) :
    Option (Response × List Event) :=
  let repoName := q.repository
  if repoName = "" then
    some (respondError StatusBadRequest "repository parameter is required", log)
  else
    match fetchImages E fuel repoName log with
    | none => none
    | some (.error err, log) =>
      some (respondError StatusInternalServerError ("Failed to fetch images: " ++ err), log)
    | some (.ok images, log) => some (respondJSON StatusOK (.images images), log)

/-- The computation of `limit` (main.go 242-247 and again 266-271). -/
def limitOf (limitStr : String) : Int :=
  let limit : Int := 10
  if limitStr ≠ "" then
    match Atoi limitStr with
    | some l => if l > 0 then l else limit
    | none => limit
  else limit

/-- The truncation `if limit > 0 && limit < len(sortedImages)` (main.go 257-259, 281-283). -/
def applyLimit (limit : Int) (sortedImages : List ImageInfo) : List ImageInfo :=
  if limit > 0 ∧ limit < (sortedImages.length : Int) then slice sortedImages 0 limit.toNat
  else sortedImages

def getMostDownloaded (E : Env) (S : SliceSorter) (fuel : Nat) (q : ImagesQuery)
    (log : List Event) : Option (Response × List Event) :=
  let repoName := q.repository
  let limit := limitOf q.limit
  match fetchImages E fuel repoName log with
  | none => none
  | some (.error err, log) =>
    some (respondError StatusInternalServerError ("Failed to fetch images: " ++ err), log)
  | some (.ok images, log) =>
    -- the slice `images` is the only one alive, at address 0
    let r := sortByLastPullTime S ⟨[images]⟩ 0
    let sortedImages := applyLimit limit (r.1.read r.2)
    some (respondJSON StatusOK (.images sortedImages), log)

def getLargestImages (E : Env) (S : SliceSorter) (fuel : Nat) (q : ImagesQuery)
    (log : List Event) : Option (Response × List Event) :=
  let repoName := q.repository
  let limit := limitOf q.limit
  match fetchImages E fuel repoName log with
  | none => none
  | some (.error err, log) =>
    some (respondError StatusInternalServerError ("Failed to fetch images: " ++ err), log)
  | some (.ok images, log) =>
    -- the slice `images` is the only one alive, at address 0
    let r := sortBySize S ⟨[images]⟩ 0
    let sortedImages := applyLimit limit (r.1.read r.2)
    some (respondJSON StatusOK (.images sortedImages), log)

/-! ## deleteImages, deleteImagesByDate (main.go 288-490) -/

def batchSize : Nat := 100

/-- The error entry of a batch whose call failed (main.go 326, 449). -/
def batchErrorMsg (i hi : Nat) (err : String) : String :=
  "Failed to delete batch " ++ toString (i + 1) ++ "-" ++ toString hi ++ ": " ++ err

/-- The error entry of one reported failure (main.go 342-344, 465-467). -/
def failureMsg (failure : ImageFailure) : String :=
  "Failed to delete image " ++ StringValue failure.ImageId.ImageDigest ++ ": " ++
    StringValue failure.FailureReason

/-- The batching loop; it stands at main.go 306-352 and again, word for word, at 429-475.
The loop variables `i`, `totalDeleted` and `errors` are arguments. -/
def deleteBatchesLoop (E : Env) (repositoryName : String) (imageDigests : List String) :
    Nat → Nat → Nat → List String → List Event → Option (Nat × List String × List Event)
  | 0, _, _, _, _ => none
  | fuel + 1, i, totalDeleted, errors, log =>
    if i < imageDigests.length then
      let hi := if i + batchSize > imageDigests.length then imageDigests.length else i + batchSize
      let batch := slice imageDigests i hi
      let imageIds : List ImageIdentifier := batch.map (fun digest => ⟨some digest, none⟩)
      let input : BatchDeleteImageInput := ⟨some repositoryName, imageIds⟩
      let result := E.BatchDeleteImage log input
      let log := log ++ [Event.BatchDeleteImage input result]
      match result with
      | .error err =>
        deleteBatchesLoop E repositoryName imageDigests fuel (i + batchSize) totalDeleted
          (errors ++ [batchErrorMsg i hi err]) log
      | .ok result =>
        deleteBatchesLoop E repositoryName imageDigests fuel (i + batchSize)
          (totalDeleted + result.ImageIds.length)
          (errors ++ result.Failures.map failureMsg) log
    else some (totalDeleted, errors, log)

/-- The response after the batching loop (main.go 354-366, 477-489). -/
def deletionResponse (totalDeleted : Nat) (errors : List String) : Response :=
  if errors.length > 0 then
    respondJSON StatusPartialContent
      (.deletion
        ("Partially completed: " ++ toString totalDeleted ++
          " images deleted, but encountered " ++ toString errors.length ++ " errors")
        totalDeleted (some errors))
  else respondJSON StatusOK (.deletion "Images deleted successfully" totalDeleted none)

/-- The argument `body` is the outcome of decoding the request body as JSON. -/
def deleteImages (E : Env) (fuel : Nat) (body : Except String DeleteRequest)
    (log : List Event) : Option (Response × List Event) :=
  match body with
  | .error err => some (respondError StatusBadRequest ("Invalid request: " ++ err), log)
  | .ok req =>
    if req.RepositoryName = "" ∨ req.ImageDigests.length = 0 then
      some (respondError StatusBadRequest "repositoryName and imageDigests are required", log)
    else
      match deleteBatchesLoop E req.RepositoryName req.ImageDigests fuel 0 0 [] log with
      | none => none
      | some (totalDeleted, errors, log) => some (deletionResponse totalDeleted errors, log)

/-- The date filter (main.go 407-411). -/
def selectByDate (images : List ImageInfo) (cutoffDate : Time) : List String :=
  images.filterMap (fun img =>
    match img.LastPullDate with
    | some t => if Time.Before t cutoffDate then some img.ImageDigest else none
    | none => none)

/-- The part of `deleteImagesByDate` from main.go 415 on, given `imagesToDelete`. -/
def deleteSelected (E : Env) (fuel : Nat) (repositoryName : String)
    (imagesToDelete : List String) (log : List Event) : Option (Response × List Event) :=
  if imagesToDelete.length = 0 then
    some (respondJSON StatusOK (.deletion "No images found matching criteria" 0 none), log)
  else
    match deleteBatchesLoop E repositoryName imagesToDelete fuel 0 0 [] log with
    | none => none
    | some (totalDeleted, errors, log) => some (deletionResponse totalDeleted errors, log)

/-- The argument `body` is the outcome of decoding the request body as JSON. -/
def deleteImagesByDate (E : Env) (fuel : Nat) (body : Except String DeleteByDateRequest)
    (log : List Event) : Option (Response × List Event) :=
  match body with
  | .error err => some (respondError StatusBadRequest ("Invalid request: " ++ err), log)
  | .ok req =>
    if req.RepositoryName = "" then
      some (respondError StatusBadRequest "repositoryName is required", log)
    else if req.ImageDigests.length > 0 then
      deleteSelected E fuel req.RepositoryName req.ImageDigests log
    else if req.DaysOld ≤ 0 then
      some (respondError StatusBadRequest
        "daysOld (> 0) is required when imageDigests is not provided", log)
    else
      match fetchImages E fuel req.RepositoryName log with
      | none => none
      | some (.error err, log) =>
        some (respondError StatusInternalServerError ("Failed to fetch images: " ++ err), log)
      | some (.ok images, log) =>
        let now := E.Now log
        let log := log ++ [Event.Now now]
        let cutoffDate := E.AddDate now 0 0 (-req.DaysOld)
        deleteSelected E fuel req.RepositoryName (selectByDate images cutoffDate) log

/-! ## Vocabulary of the statements -/

/-- The digests carried by successive listing pages, in order. -/
def pageDetails (pages : List DescribeImagesOutput) : List ImageDetail :=
  pages.flatMap (fun p => p.ImageDetails)

/-- The repository names carried by successive listing pages, in order. -/
def pageNames (pages : List DescribeRepositoriesOutput) : List String :=
  pages.flatMap (fun p => p.Repositories.map (fun repo => repo.RepositoryName))

/-- After `log`, the registry answers the image listing of `repoName`, entered with cursor
`tok` and continued with the cursor of each answer, with exactly `pages`: every call
succeeds, every page but the last carries a next cursor and the last carries none. -/
def servesImagePages (E : Env) (repoName : String) :
    List Event → Option String → List DescribeImagesOutput → Prop
  | _, _, [] => False
  | log, tok, [p] =>
    E.DescribeImages log ⟨some repoName, some 100, tok⟩ = .ok p ∧ p.NextToken = none
  | log, tok, p :: q :: ps =>
    E.DescribeImages log ⟨some repoName, some 100, tok⟩ = .ok p ∧ p.NextToken ≠ none ∧
      servesImagePages E repoName
        (log ++ [Event.DescribeImages ⟨some repoName, some 100, tok⟩ (.ok p)])
        p.NextToken (q :: ps)

/-- The listing calls that collect `pages`: the first with cursor `tok`, each later one
with the cursor of the page before it. -/
def imagePageEvents (repoName : String) : Option String → List DescribeImagesOutput → List Event
  | _, [] => []
  | tok, p :: ps =>
    Event.DescribeImages ⟨some repoName, some 100, tok⟩ (.ok p) ::
      imagePageEvents repoName p.NextToken ps

/-- The counterpart of `servesImagePages` for the repository listing. -/
def servesRepositoryPages (E : Env) :
    List Event → Option String → List DescribeRepositoriesOutput → Prop
  | _, _, [] => False
  | log, tok, [p] => E.DescribeRepositories log ⟨some 100, tok⟩ = .ok p ∧ p.NextToken = none
  | log, tok, p :: q :: ps =>
    E.DescribeRepositories log ⟨some 100, tok⟩ = .ok p ∧ p.NextToken ≠ none ∧
      servesRepositoryPages E
        (log ++ [Event.DescribeRepositories ⟨some 100, tok⟩ (.ok p)]) p.NextToken (q :: ps)

/-- The counterpart of `imagePageEvents` for the repository listing. -/
def repositoryPageEvents : Option String → List DescribeRepositoriesOutput → List Event
  | _, [] => []
  | tok, p :: ps =>
    Event.DescribeRepositories ⟨some 100, tok⟩ (.ok p) :: repositoryPageEvents p.NextToken ps

/-- Every event of the second list, appended to the first in order, carries the answer the
environment gives at that point. -/
def answeredBy (E : Env) : List Event → List Event → Prop
  | _, [] => True
  | log, e :: rest =>
    (match e with
      | .DescribeRepositories input result => result = E.DescribeRepositories log input
      | .DescribeImages input result => result = E.DescribeImages log input
      | .BatchDeleteImage input result => result = E.BatchDeleteImage log input
      | .Now t => t = E.Now log) ∧
    answeredBy E (log ++ [e]) rest

/-- The image details reported by the successful image listings of a log, in order. -/
def reportedDetails : List Event → List ImageDetail
  | [] => []
  | Event.DescribeImages _ (.ok out) :: rest => out.ImageDetails ++ reportedDetails rest
  | _ :: rest => reportedDetails rest

/-- The number of batches of at most 100 that `n` items fill: `n / 100` rounded up. -/
def numBatches (n : Nat) : Nat := (n + 99) / 100

/-- The digests at positions `100 k` up to, not including, `min (100 (k + 1)) n`. -/
def batchAt (digests : List String) (k : Nat) : List String :=
  slice digests (100 * k) (min (100 * (k + 1)) digests.length)

/-- The batches with the indices `j, j + 1, ..., j + m - 1`. -/
def batchesFrom (digests : List String) (j m : Nat) : List (List String) :=
  (List.range' j m).map (batchAt digests)

/-- All batches of a candidate list, in order. -/
def expectedBatches (digests : List String) : List (List String) :=
  batchesFrom digests 0 (numBatches digests.length)

/-- The delete request for one batch. -/
def deleteInput (repositoryName : String) (batch : List String) : BatchDeleteImageInput :=
  ⟨some repositoryName, batch.map (fun digest => ⟨some digest, none⟩)⟩

/-- After `log`, the registry answers the delete calls for `batches`, issued in order,
with exactly `outcomes`. -/
def answersDeletes (E : Env) (repositoryName : String) :
    List Event → List (List String) → List (Except String BatchDeleteImageOutput) → Prop
  | _, [], [] => True
  | log, b :: bs, o :: os =>
    E.BatchDeleteImage log (deleteInput repositoryName b) = o ∧
      answersDeletes E repositoryName
        (log ++ [Event.BatchDeleteImage (deleteInput repositoryName b) o]) bs os
  | _, _, _ => False

/-- The delete calls for `batches` together with their outcomes. -/
def deleteEvents (repositoryName : String) :
    List (List String) → List (Except String BatchDeleteImageOutput) → List Event
  | b :: bs, o :: os =>
    Event.BatchDeleteImage (deleteInput repositoryName b) o :: deleteEvents repositoryName bs os
  | _, _ => []

/-- The number of image ids a batch outcome confirms: none when the call failed. -/
def confirmedCount : Except String BatchDeleteImageOutput → Nat
  | .ok out => out.ImageIds.length
  | .error _ => 0

/-- The error entries of the batches `j, j + 1, ...` of `n` candidates with the given
outcomes: one entry with the 1-based range for a failed call, one entry for each failure
reported by a successful call. -/
def errorEntries (n : Nat) : Nat → List (Except String BatchDeleteImageOutput) → List String
  | _, [] => []
  | j, .error err :: os =>
    batchErrorMsg (100 * j) (min (100 * (j + 1)) n) err :: errorEntries n (j + 1) os
  | j, .ok out :: os => out.Failures.map failureMsg ++ errorEntries n (j + 1) os

/-- Starting after `log`, fetching the images of `repos` one after the other gives
`outcomes` and leaves the log `final`. -/
def fetchesYield (E : Env) (fuel : Nat) :
    List Event → List String → List (Except String (List ImageInfo)) → List Event → Prop
  | log, [], [], final => final = log
  | log, r :: rs, o :: os, final =>
    ∃ mid, fetchImages E fuel r log = some (o, mid) ∧ fetchesYield E fuel mid rs os final
  | _, _, _, _ => False

/-- The log once `getGlobalStats` has looked at the cache: the clock is read unless
`expiresAt` is the zero time. -/
def logAfterCheck (E : Env) (cache : cachedGlobalStats) (log : List Event) : List Event :=
  if cache.expiresAt = 0 then log else log ++ [Event.Now (E.Now log)]

/-- The sum of the sizes of an inventory, in `int64` arithmetic. -/
def sizeSum (images : List ImageInfo) : Int := wrapInt64 (images.map (fun img => img.ImageSize)).sum

/-- One summary for each repository whose fetch succeeded, in enumeration order. -/
def summaries : List String → List (Except String (List ImageInfo)) → List RepositoryStats
  | r :: rs, .ok images :: os => ⟨r, sizeSum images, images.length⟩ :: summaries rs os
  | _ :: rs, .error _ :: os => summaries rs os
  | _, _ => []

/-- The last-pull timestamp of an image detail: the reported pull time, or the push time
when no pull is reported. -/
def lastPullOf (d : ImageDetail) : Time :=
  match d.LastRecordedPullTime with
  | some t => t
  | none => d.ImagePushedAt

/-! ## Sample environments -/

/-- Insertion sort, one sorter that meets the contract of `sort.Slice`. -/
def insertionSorter : SliceSorter where
  sort less l := l.insertionSort (fun a b => less b a = false)
  perm less l := List.perm_insertionSort _ l
  sorted less l h := by
    haveI : IsTotal _ (fun a b => less b a = false) := ⟨fun a b => by
      cases hab : less a b
      · exact Or.inr rfl
      · left
        cases hba : less b a
        · rfl
        · have := h.trans a b a hab hba
          rw [h.irrefl] at this
          cases this⟩
    haveI : IsTrans _ (fun a b => less b a = false) :=
      ⟨fun a b c hab hbc => h.negTrans c b a hbc hab⟩
    exact List.sorted_insertionSort _ l

def day : Duration := 24 * Hour

def sampleNow : Time := 1000 * day

def imgA : ImageDetail := ⟨"sha256:a", 300, sampleNow - 90 * day, [some "v1", some "latest"], some (sampleNow - 1 * day)⟩
def imgB : ImageDetail := ⟨"sha256:b", 700, sampleNow - 40 * day, [], none⟩
def imgC : ImageDetail := ⟨"sha256:c", 500, sampleNow - 50 * day, [none], some (sampleNow - 10 * day)⟩
def imgD : ImageDetail := ⟨"sha256:d", 900, sampleNow - 5 * day, [some "stable"], none⟩

/-- Eleven images of sizes 0 to 10. -/
def elevenImages : List ImageDetail :=
  (List.range 11).map (fun k => ⟨toString k, (k : Int), sampleNow, [], none⟩)

/-- The number of delete calls in a log. -/
def countDeletes : List Event → Nat
  | [] => 0
  | Event.BatchDeleteImage _ _ :: rest => countDeletes rest + 1
  | _ :: rest => countDeletes rest

/-- A registry with the repositories `app`, `db`, `web` and `big`, listed in two pages.
`app` lists three pages, the middle one empty; the listing of `db` fails; the second
delete call of a run fails, every other one confirms all it is given. The client
validates the parameters of `DescribeImages`. The clock stands at `sampleNow` and the
calendar is that of UTC. -/
def sampleEnv : Env where
  DescribeRepositories _ input :=
    match input.NextToken with
    | none => .ok ⟨[⟨"app"⟩], some "r1"⟩
    | some "r1" => .ok ⟨[⟨"db"⟩, ⟨"web"⟩], none⟩
    | some _ => .error "InvalidParameterException"
  DescribeImages _ input :=
    match input.Validate with
    | some err => .error err
    | none =>
      match input.RepositoryName, input.NextToken with
      | some "app", none => .ok ⟨[imgA, imgB], some "p1"⟩
      | some "app", some "p1" => .ok ⟨[], some "p2"⟩
      | some "app", some "p2" => .ok ⟨[imgC], none⟩
      | some "web", none => .ok ⟨[imgD], none⟩
      | some "big", none => .ok ⟨elevenImages, none⟩
      | _, _ => .error "RepositoryNotFoundException"
  BatchDeleteImage log input :=
    if countDeletes log = 1 then .error "ThrottlingException" else .ok ⟨input.ImageIds, []⟩
  Now _ := sampleNow
  AddDate t _ _ days := Time.AddDays t days

/-- The same registry with a clock that moves one nanosecond with every interaction. -/
def tickingEnv : Env := { sampleEnv with Now := fun log => sampleNow + log.length }

/-- The digests `0`, `1`, ..., `249`. -/
def digests250 : List String := (List.range 250).map toString

/-- Outcomes of the three delete calls for `digests250`: the second call fails, the
first and the third confirm every digest they carry. -/
def sampleOutcomes : List (Except String BatchDeleteImageOutput) :=
  [.ok ⟨(slice digests250 0 100).map (fun digest => ⟨some digest, none⟩), []⟩,
   .error "ThrottlingException",
   .ok ⟨(slice digests250 200 250).map (fun digest => ⟨some digest, none⟩), []⟩]

/-- The three listing pages of the repository `app` in `sampleEnv`. -/
def appPages : List DescribeImagesOutput :=
  [⟨[imgA, imgB], some "p1"⟩, ⟨[], some "p2"⟩, ⟨[imgC], none⟩]

/-- The two pages of the repository listing in `sampleEnv`. -/
def repoPages : List DescribeRepositoriesOutput :=
  [⟨[⟨"app"⟩], some "r1"⟩, ⟨[⟨"db"⟩, ⟨"web"⟩], none⟩]

/-- The outcomes of fetching `app`, `db` and `web` from the sample registry. -/
def sampleFetches : List (Except String (List ImageInfo)) :=
  [.ok [imageInfoOf "app" imgA, imageInfoOf "app" imgB, imageInfoOf "app" imgC],
   .error "failed to describe images for repo db: RepositoryNotFoundException",
   .ok [imageInfoOf "web" imgD]]

/-- Statistics cached at some earlier time. -/
def staleStats : GlobalStats := ⟨1, 1, 10, [⟨"old", 10, 1⟩]⟩

/-! ## Pagination -/

theorem fetchImagesLoop_serves (E : Env) (repoName : String) :
    ∀ (pages : List DescribeImagesOutput) (fuel : Nat) (tok : Option String)
      (acc : List ImageInfo) (log : List Event),
      servesImagePages E repoName log tok pages → pages.length ≤ fuel →
      fetchImagesLoop E repoName fuel tok acc log =
        some (.ok (acc ++ (pageDetails pages).map (imageInfoOf repoName)),
          log ++ imagePageEvents repoName tok pages) := by
  intro pages
  induction pages with
  | nil => intro fuel tok acc log h; exact absurd h (by simp [servesImagePages])
  | cons p ps ih =>
    intro fuel tok acc log h hfuel
    cases fuel with
    | zero => simp at hfuel
    | succ fuel =>
      cases ps with
      | nil =>
        obtain ⟨h1, h2⟩ := h
        simp [fetchImagesLoop, h1, h2, pageDetails, imagePageEvents]
      | cons q qs =>
        obtain ⟨h1, h2, h3⟩ := h
        obtain ⟨t, ht⟩ := Option.ne_none_iff_exists'.mp h2
        have hlen : (q :: qs).length ≤ fuel := by simpa using hfuel
        have := ih fuel (some t) (acc ++ p.ImageDetails.map (imageInfoOf repoName)) _
          (ht ▸ h3) hlen
        simp only [fetchImagesLoop, h1, ht]
        rw [this]
        simp [pageDetails, imagePageEvents, ht]

theorem describeRepositoriesLoop_serves (E : Env) :
    ∀ (pages : List DescribeRepositoriesOutput) (fuel : Nat) (tok : Option String)
      (acc : List String) (log : List Event),
      servesRepositoryPages E log tok pages → pages.length ≤ fuel →
      describeRepositoriesLoop E fuel tok acc log =
        some (.ok (acc ++ pageNames pages), log ++ repositoryPageEvents tok pages) := by
  intro pages
  induction pages with
  | nil => intro fuel tok acc log h; exact absurd h (by simp [servesRepositoryPages])
  | cons p ps ih =>
    intro fuel tok acc log h hfuel
    cases fuel with
    | zero => simp at hfuel
    | succ fuel =>
      cases ps with
      | nil =>
        obtain ⟨h1, h2⟩ := h
        simp [describeRepositoriesLoop, h1, h2, pageNames, repositoryPageEvents]
      | cons q qs =>
        obtain ⟨h1, h2, h3⟩ := h
        obtain ⟨t, ht⟩ := Option.ne_none_iff_exists'.mp h2
        have hlen : (q :: qs).length ≤ fuel := by simpa using hfuel
        have := ih fuel (some t) (acc ++ p.Repositories.map (fun repo => repo.RepositoryName)) _
          (ht ▸ h3) hlen
        simp only [describeRepositoriesLoop, h1, ht]
        rw [this]
        simp [pageNames, repositoryPageEvents, ht]

theorem imagePageEvents_length (repoName : String) :
    ∀ (pages : List DescribeImagesOutput) (tok : Option String),
      (imagePageEvents repoName tok pages).length = pages.length := by
  intro pages
  induction pages with
  | nil => intro tok; rfl
  | cons p ps ih => intro tok; simp [imagePageEvents, ih]

theorem repositoryPageEvents_length :
    ∀ (pages : List DescribeRepositoriesOutput) (tok : Option String),
      (repositoryPageEvents tok pages).length = pages.length := by
  intro pages
  induction pages with
  | nil => intro tok; rfl
  | cons p ps ih => intro tok; simp [repositoryPageEvents, ih]

theorem reportedDetails_append (l₁ l₂ : List Event) :
    reportedDetails (l₁ ++ l₂) = reportedDetails l₁ ++ reportedDetails l₂ := by
  induction l₁ with
  | nil => rfl
  | cons e rest ih =>
    cases e with
    | DescribeImages input result =>
      cases result with
      | ok out => simp [reportedDetails, ih]
      | error err => simp [reportedDetails, ih]
    | DescribeRepositories input result => simp [reportedDetails, ih]
    | BatchDeleteImage input result => simp [reportedDetails, ih]
    | Now t => simp [reportedDetails, ih]

/-- Whatever the registry answers: when the loop returns an inventory, it is the
accumulator followed by one record for each detail reported during the loop, and the
events added to the log carry the answers of the environment. -/
theorem fetchImagesLoop_reported (E : Env) (repoName : String) :
    ∀ (fuel : Nat) (tok : Option String) (acc : List ImageInfo) (log : List Event)
      (images : List ImageInfo) (final : List Event),
      fetchImagesLoop E repoName fuel tok acc log = some (.ok images, final) →
      ∃ evs, final = log ++ evs ∧
        images = acc ++ (reportedDetails evs).map (imageInfoOf repoName) ∧
        answeredBy E log evs := by
  intro fuel
  induction fuel with
  | zero => intro tok acc log images final h; simp [fetchImagesLoop] at h
  | succ fuel ih =>
    intro tok acc log images final h
    simp only [fetchImagesLoop] at h
    cases hres : E.DescribeImages log ⟨some repoName, some 100, tok⟩ with
    | error err => rw [hres] at h; simp at h
    | ok out =>
      rw [hres] at h
      cases htok : out.NextToken with
      | none =>
        simp only [htok] at h
        simp only [Option.some.injEq, Prod.mk.injEq, Except.ok.injEq] at h
        refine ⟨[Event.DescribeImages ⟨some repoName, some 100, tok⟩ (.ok out)], h.2.symm, ?_,
          ?_⟩
        · simp [reportedDetails, ← h.1]
        · exact ⟨hres.symm, trivial⟩
      | some t =>
        simp only [htok] at h
        obtain ⟨evs, h1, h2, h3⟩ := ih _ _ _ _ _ h
        refine ⟨Event.DescribeImages ⟨some repoName, some 100, tok⟩ (.ok out) :: evs, ?_, ?_,
          ?_⟩
        · simp [h1]
        · simp [reportedDetails, h2]
        · exact ⟨hres.symm, h3⟩

theorem forall₂_map_of_forall {α β : Type} (P : α → β → Prop) (f : α → β)
    (h : ∀ a, P a (f a)) : ∀ l : List α, List.Forall₂ P l (l.map f) := by
  intro l
  induction l with
  | nil => exact List.Forall₂.nil
  | cons a rest ih => exact List.Forall₂.cons (h a) ih

/-! ## Batching -/

theorem slice_append {α : Type} (l : List α) (a b c : Nat) (hab : a ≤ b) (hbc : b ≤ c) :
    slice l a b ++ slice l b c = slice l a c := by
  unfold slice
  have h1 : c - a = (b - a) + (c - b) := by omega
  have h2 : l.drop b = (l.drop a).drop (b - a) := by
    rw [List.drop_drop]; congr 1; omega
  rw [h1, List.take_add, h2]

theorem slice_min_left {α : Type} (l : List α) (a b : Nat) :
    slice l a b = slice l (min a l.length) b := by
  by_cases h : a ≤ l.length
  · rw [Nat.min_eq_left h]
  · have h' : l.length ≤ a := by omega
    rw [Nat.min_eq_right h']
    unfold slice
    rw [List.drop_eq_nil_of_le h', List.drop_eq_nil_of_le (Nat.le_refl _)]
    simp

theorem slice_length {α : Type} (l : List α) (a b : Nat) :
    (slice l a b).length = min (b - a) (l.length - a) := by
  simp [slice]

theorem batchesFrom_succ (digests : List String) (j m : Nat) :
    batchesFrom digests j (m + 1) = batchAt digests j :: batchesFrom digests (j + 1) m := by
  simp [batchesFrom, List.range'_succ]

theorem batchesFrom_length (digests : List String) (j m : Nat) :
    (batchesFrom digests j m).length = m := by
  simp [batchesFrom]

theorem batchesFrom_join (digests : List String) :
    ∀ (m j : Nat), (batchesFrom digests j m).flatten =
      slice digests (min (100 * j) digests.length) (min (100 * (j + m)) digests.length) := by
  intro m
  induction m with
  | zero => intro j; simp [batchesFrom, slice]
  | succ m ih =>
    intro j
    rw [batchesFrom_succ, List.flatten_cons, ih (j + 1), batchAt, slice_min_left digests (100 * j),
      slice_append _ _ _ _ (by omega) (by omega)]
    congr 2
    omega

theorem expectedBatches_join (digests : List String) :
    (expectedBatches digests).flatten = digests := by
  unfold expectedBatches
  rw [batchesFrom_join]
  have h : digests.length ≤ 100 * (0 + numBatches digests.length) := by
    unfold numBatches; omega
  rw [Nat.min_eq_right h]
  simp [slice]

theorem batchAt_length (digests : List String) (k : Nat) (hk : k < numBatches digests.length) :
    1 ≤ (batchAt digests k).length ∧ (batchAt digests k).length ≤ 100 := by
  unfold numBatches at hk
  rw [batchAt, slice_length]
  omega

theorem mem_expectedBatches (digests : List String) (b : List String)
    (hb : b ∈ expectedBatches digests) : ∃ k, k < numBatches digests.length ∧ b = batchAt digests k := by
  simp only [expectedBatches, batchesFrom, List.mem_map, List.mem_range'_1] at hb
  obtain ⟨k, hk, rfl⟩ := hb
  exact ⟨k, by omega, rfl⟩

theorem deleteEvents_length (repositoryName : String) :
    ∀ (bs : List (List String)) (os : List (Except String BatchDeleteImageOutput)),
      bs.length = os.length → (deleteEvents repositoryName bs os).length = bs.length := by
  intro bs
  induction bs with
  | nil => intro os _; cases os <;> rfl
  | cons b bs ih =>
    intro os h
    cases os with
    | nil => simp at h
    | cons o os => simp [deleteEvents, ih os (by simpa using h)]

/-- The batching loop, entered at batch `j` with the outcomes of the remaining calls known. -/
theorem deleteBatchesLoop_answers (E : Env) (repositoryName : String) (digests : List String) :
    ∀ (outcomes : List (Except String BatchDeleteImageOutput)) (j fuel totalDeleted : Nat)
      (errors : List String) (log : List Event),
      j + outcomes.length = numBatches digests.length → outcomes.length < fuel →
      answersDeletes E repositoryName log (batchesFrom digests j outcomes.length) outcomes →
      deleteBatchesLoop E repositoryName digests fuel (100 * j) totalDeleted errors log =
        some (totalDeleted + (outcomes.map confirmedCount).sum,
          errors ++ errorEntries digests.length j outcomes,
          log ++ deleteEvents repositoryName (batchesFrom digests j outcomes.length) outcomes) := by
  intro outcomes
  induction outcomes with
  | nil =>
    intro j fuel totalDeleted errors log hj hfuel _
    cases fuel with
    | zero => simp at hfuel
    | succ fuel =>
      have : ¬ (100 * j < digests.length) := by
        unfold numBatches at hj; simp at hj; omega
      simp [deleteBatchesLoop, this, errorEntries, deleteEvents, batchesFrom]
  | cons o os ih =>
    intro j fuel totalDeleted errors log hj hfuel hans
    cases fuel with
    | zero => simp at hfuel
    | succ fuel =>
      have hlt : 100 * j < digests.length := by
        unfold numBatches at hj; simp at hj; omega
      have hhi : (if 100 * (j + 1) > digests.length then digests.length
          else 100 * (j + 1)) = min (100 * (j + 1)) digests.length := by
        split <;> omega
      rw [List.length_cons, batchesFrom_succ] at hans ⊢
      obtain ⟨h1, h2⟩ := hans
      have hb : slice digests (100 * j) (min (100 * (j + 1)) digests.length) =
          batchAt digests j := rfl
      have hin : (⟨some repositoryName,
          (batchAt digests j).map (fun digest => (⟨some digest, none⟩ : ImageIdentifier))⟩ :
            BatchDeleteImageInput) = deleteInput repositoryName (batchAt digests j) := rfl
      have hnext : 100 * j + batchSize = 100 * (j + 1) := by unfold batchSize; omega
      have hj' : (j + 1) + os.length = numBatches digests.length := by
        simp at hj; omega
      have hfuel' : os.length < fuel := by simp at hfuel; omega
      cases o with
      | error err =>
        simp only [deleteBatchesLoop, hlt, if_true, hnext, hhi, hb, hin, h1]
        rw [ih (j + 1) fuel _ _ _ hj' hfuel' h2]
        simp [confirmedCount, errorEntries, deleteEvents]
      | ok out =>
        simp only [deleteBatchesLoop, hlt, if_true, hnext, hhi, hb, hin, h1]
        rw [ih (j + 1) fuel _ _ _ hj' hfuel' h2]
        simp [confirmedCount, errorEntries, deleteEvents, Nat.add_assoc]

/-- Every environment gives some outcome to each delete call. -/
theorem answersDeletes_exists (E : Env) (repositoryName : String) :
    ∀ (bs : List (List String)) (log : List Event),
      ∃ outcomes, outcomes.length = bs.length ∧ answersDeletes E repositoryName log bs outcomes := by
  intro bs
  induction bs with
  | nil => intro log; exact ⟨[], rfl, trivial⟩
  | cons b bs ih =>
    intro log
    obtain ⟨os, h1, h2⟩ := ih (log ++ [Event.BatchDeleteImage (deleteInput repositoryName b)
      (E.BatchDeleteImage log (deleteInput repositoryName b))])
    exact ⟨E.BatchDeleteImage log (deleteInput repositoryName b) :: os, by simp [h1], rfl, h2⟩

theorem answersDeletes_length (E : Env) (repositoryName : String) :
    ∀ (bs : List (List String)) (os : List (Except String BatchDeleteImageOutput))
      (log : List Event), answersDeletes E repositoryName log bs os → os.length = bs.length := by
  intro bs
  induction bs with
  | nil => intro os log h; cases os with
    | nil => rfl
    | cons o os => exact absurd h (by simp [answersDeletes])
  | cons b bs ih =>
    intro os log h
    cases os with
    | nil => exact absurd h (by simp [answersDeletes])
    | cons o os => simp [ih os _ h.2]

/-! ## Sorting -/

theorem sizeLess_strictWeakOrder : StrictWeakOrder sizeLess where
  irrefl a := by simp [sizeLess]
  trans a b c := by simp only [sizeLess, decide_eq_true_eq]; omega
  negTrans a b c := by simp only [sizeLess, decide_eq_false_iff_not]; omega

theorem repoSizeLess_strictWeakOrder : StrictWeakOrder repoSizeLess where
  irrefl a := by simp [repoSizeLess]
  trans a b c := by simp only [repoSizeLess, decide_eq_true_eq]; omega
  negTrans a b c := by simp only [repoSizeLess, decide_eq_false_iff_not]; omega

theorem int_gt_trans (x y z : Int) : y < x → z < y → z < x := by omega

theorem int_le_trans (x y z : Int) : x ≤ y → y ≤ z → x ≤ z := by omega

theorem lastPullLess_strictWeakOrder : StrictWeakOrder lastPullLess where
  irrefl a := by
    unfold lastPullLess
    cases a.LastPullDate <;> simp [Time.After]
  trans a b c := by
    unfold lastPullLess
    cases a.LastPullDate <;> cases b.LastPullDate <;> cases c.LastPullDate <;>
      simp [Time.After]
    exact int_gt_trans _ _ _
  negTrans a b c := by
    unfold lastPullLess
    cases a.LastPullDate <;> cases b.LastPullDate <;> cases c.LastPullDate <;>
      simp [Time.After]
    exact int_le_trans _ _ _

theorem SliceHeap.read_write_same (h : SliceHeap) (r : Nat) (v : List ImageInfo)
    (hr : r < h.cells.length) : (h.write r v).read r = v := by
  simp [SliceHeap.read, SliceHeap.write, List.getD_eq_getElem?_getD, List.getElem?_set, hr]

theorem SliceHeap.read_write_other (h : SliceHeap) (r r' : Nat) (v : List ImageInfo)
    (hne : r ≠ r') : (h.write r v).read r' = h.read r' := by
  simp [SliceHeap.read, SliceHeap.write, List.getD_eq_getElem?_getD, List.getElem?_set, hne]

theorem SliceHeap.write_length (h : SliceHeap) (r : Nat) (v : List ImageInfo) :
    (h.write r v).cells.length = h.cells.length := by
  simp [SliceHeap.write]

theorem SliceHeap.read_make_new (h : SliceHeap) (n : Nat) :
    (h.make n).1.read (h.make n).2 = List.replicate n ImageInfo.zero := by
  simp [SliceHeap.read, SliceHeap.make, List.getD_eq_getElem?_getD]

theorem SliceHeap.read_make_old (h : SliceHeap) (n r : Nat) (hr : r < h.cells.length) :
    (h.make n).1.read r = h.read r := by
  simp [SliceHeap.read, SliceHeap.make, List.getD_eq_getElem?_getD, List.getElem?_append_left hr]

/-- The copy-then-sort pattern shared by the two ranking functions: the returned slice
holds the sorted contents of the argument, and the argument is left as it was. -/
theorem copy_sort_spec (S : SliceSorter) (h : SliceHeap) (images : Nat)
    (less : ImageInfo → ImageInfo → Bool) (hr : images < h.cells.length) :
    let made := h.make (h.read images).length
    let final := ((made.1.copy made.2 images).sortSlice S made.2 less)
    final.read made.2 = S.sort less (h.read images) ∧ final.read images = h.read images := by
  intro made final
  have hnew : made.2 = h.cells.length := rfl
  have hne : made.2 ≠ images := by omega
  have hlen : made.2 < made.1.cells.length := by simp [made, SliceHeap.make]
  have hold : made.1.read images = h.read images := SliceHeap.read_make_old h _ _ hr
  have hfresh : made.1.read made.2 = List.replicate (h.read images).length ImageInfo.zero :=
    SliceHeap.read_make_new h _
  have hcopy : (made.1.copy made.2 images).read made.2 = h.read images := by
    unfold SliceHeap.copy
    rw [SliceHeap.read_write_same _ _ _ hlen, hold, hfresh]
    simp
  have hcopy' : (made.1.copy made.2 images).read images = h.read images := by
    unfold SliceHeap.copy
    rw [SliceHeap.read_write_other _ _ _ _ hne, hold]
  have hlen' : made.2 < (made.1.copy made.2 images).cells.length := by
    unfold SliceHeap.copy; rw [SliceHeap.write_length]; exact hlen
  constructor
  · show ((made.1.copy made.2 images).write made.2 _).read made.2 = _
    rw [SliceHeap.read_write_same _ _ _ hlen', hcopy]
  · show ((made.1.copy made.2 images).write made.2 _).read images = _
    rw [SliceHeap.read_write_other _ _ _ _ hne, hcopy']

theorem sortBySize_spec (S : SliceSorter) (h : SliceHeap) (images : Nat)
    (hr : images < h.cells.length) :
    (sortBySize S h images).1.read (sortBySize S h images).2 = S.sort sizeLess (h.read images) ∧
      (sortBySize S h images).1.read images = h.read images :=
  copy_sort_spec S h images sizeLess hr

theorem sortByLastPullTime_spec (S : SliceSorter) (h : SliceHeap) (images : Nat)
    (hr : images < h.cells.length) :
    (sortByLastPullTime S h images).1.read (sortByLastPullTime S h images).2 =
        S.sort lastPullLess (h.read images) ∧
      (sortByLastPullTime S h images).1.read images = h.read images :=
  copy_sort_spec S h images lastPullLess hr

/-! ## Aggregation -/

theorem wrapInt64_add_left (a b : Int) : wrapInt64 (wrapInt64 a + b) = wrapInt64 (a + b) := by
  unfold wrapInt64; omega

theorem wrapInt64_add_right (a b : Int) : wrapInt64 (a + wrapInt64 b) = wrapInt64 (a + b) := by
  unfold wrapInt64; omega

/-- In the `int64` range the reduction changes nothing. -/
theorem wrapInt64_of_range (a : Int) (h1 : -2 ^ 63 ≤ a) (h2 : a < 2 ^ 63) : wrapInt64 a = a := by
  unfold wrapInt64; omega

theorem addSizes_eq (images : List ImageInfo) :
    ∀ (r t : Int), addSizes images (wrapInt64 r) (wrapInt64 t) =
      (wrapInt64 (r + (images.map (fun img => img.ImageSize)).sum),
        wrapInt64 (t + (images.map (fun img => img.ImageSize)).sum)) := by
  induction images with
  | nil => intro r t; simp [addSizes]
  | cons img rest ih =>
    intro r t
    have := ih (r + img.ImageSize) (t + img.ImageSize)
    simp only [addSizes, List.foldl_cons, wrapInt64_add_left] at this ⊢
    rw [this]
    simp [Int.add_assoc]

/-- The loop over the repositories, given the outcome of every fetch. -/
theorem aggregateLoop_yield (E : Env) (fuel : Nat) :
    ∀ (repos : List String) (outcomes : List (Except String (List ImageInfo)))
      (acc : Totals) (x : Int) (log final : List Event),
      fetchesYield E fuel log repos outcomes final → acc.totalSize = wrapInt64 x →
      ∃ acc', aggregateLoop E fuel repos acc log = some (acc', final) ∧
        acc'.totalImages = acc.totalImages + ((summaries repos outcomes).map (·.ImageCount)).sum ∧
        acc'.totalSize = wrapInt64 (x + ((summaries repos outcomes).map (·.Size)).sum) ∧
        acc'.repoStats = acc.repoStats ++ summaries repos outcomes := by
  intro repos
  induction repos with
  | nil =>
    intro outcomes acc x log final h hx
    cases outcomes with
    | nil =>
      simp only [fetchesYield] at h
      exact ⟨acc, by simp [aggregateLoop, h], by simp [summaries], by simp [summaries, hx],
        by simp [summaries]⟩
    | cons o os => exact absurd h (by simp [fetchesYield])
  | cons r rs ih =>
    intro outcomes acc x log final h hx
    cases outcomes with
    | nil => exact absurd h (by simp [fetchesYield])
    | cons o os =>
      obtain ⟨mid, h1, h2⟩ := h
      cases o with
      | error err =>
        obtain ⟨acc', e1, e2, e3, e4⟩ :=
          ih os { acc with reposWithErrors := acc.reposWithErrors + 1 } x mid final h2 hx
        exact ⟨acc', by simp [aggregateLoop, h1, e1], by simpa [summaries] using e2,
          by simpa [summaries] using e3, by simpa [summaries] using e4⟩
      | ok images =>
        have hsz : addSizes images 0 acc.totalSize =
            (sizeSum images, wrapInt64 (x + (images.map (fun img => img.ImageSize)).sum)) := by
          have := addSizes_eq images 0 x
          rw [← hx] at this
          simpa [sizeSum, wrapInt64] using this
        obtain ⟨acc', e1, e2, e3, e4⟩ := ih os
          { totalImages := acc.totalImages + images.length
            totalSize := (addSizes images 0 acc.totalSize).2
            reposProcessed := acc.reposProcessed + 1
            reposWithErrors := acc.reposWithErrors
            repoStats := acc.repoStats ++ [⟨r, (addSizes images 0 acc.totalSize).1, images.length⟩] }
          (x + (images.map (fun img => img.ImageSize)).sum) mid final h2 (by rw [hsz])
        refine ⟨acc', by simp [aggregateLoop, h1, e1], ?_, ?_, ?_⟩
        · simp only [summaries, List.map_cons, List.sum_cons]
          rw [e2]; simp only []; omega
        · simp only [summaries, List.map_cons, List.sum_cons]
          rw [e3, sizeSum, ← Int.add_assoc, ← wrapInt64_add_left,
            ← wrapInt64_add_right x, wrapInt64_add_left]
        · simp only [summaries]
          rw [e4, hsz]; simp

theorem deleteEvents_at (repositoryName : String) :
    ∀ (bs : List (List String)) (os : List (Except String BatchDeleteImageOutput)) (k : Nat),
      os.length = bs.length → k < bs.length →
      ∃ b o, bs[k]? = some b ∧ os[k]? = some o ∧
        (deleteEvents repositoryName bs os)[k]? =
          some (Event.BatchDeleteImage (deleteInput repositoryName b) o) := by
  intro bs
  induction bs with
  | nil => intro os k _ hk; simp at hk
  | cons b bs ih =>
    intro os k hlen hk
    cases os with
    | nil => simp at hlen
    | cons o os =>
      cases k with
      | zero => exact ⟨b, o, by simp, by simp, by simp [deleteEvents]⟩
      | succ k =>
        obtain ⟨b', o', h1, h2, h3⟩ := ih os k (by simpa using hlen) (by simpa using hk)
        exact ⟨b', o', by simpa using h1, by simpa using h2, by simpa [deleteEvents] using h3⟩

theorem expectedBatches_at (digests : List String) (k : Nat)
    (hk : k < numBatches digests.length) :
    (expectedBatches digests)[k]? = some (batchAt digests k) := by
  simp [expectedBatches, batchesFrom, List.getElem?_map, List.getElem?_range', hk]

theorem expectedBatches_length (digests : List String) :
    (expectedBatches digests).length = numBatches digests.length := by
  simp [expectedBatches, batchesFrom]

theorem expectedBatches_eq_range (digests : List String) :
    expectedBatches digests = (List.range (numBatches digests.length)).map (batchAt digests) := by
  simp [expectedBatches, batchesFrom, List.range_eq_range']

/-- The two deletion handlers on a valid request with explicit digests, given the outcome
of every delete call. -/
theorem delete_handlers_answers (E : Env) (repositoryName : String) (digests : List String)
    (outcomes : List (Except String BatchDeleteImageOutput)) (fuel : Nat) (log : List Event)
    (hrepo : repositoryName ≠ "") (hne : digests ≠ [])
    (hfuel : numBatches digests.length < fuel)
    (hans : answersDeletes E repositoryName log (expectedBatches digests) outcomes) :
    deleteImages E fuel (.ok ⟨repositoryName, digests⟩) log =
        some (deletionResponse (outcomes.map confirmedCount).sum
            (errorEntries digests.length 0 outcomes),
          log ++ deleteEvents repositoryName (expectedBatches digests) outcomes) ∧
      ∀ daysOld, deleteImagesByDate E fuel (.ok ⟨repositoryName, daysOld, digests⟩) log =
        some (deletionResponse (outcomes.map confirmedCount).sum
            (errorEntries digests.length 0 outcomes),
          log ++ deleteEvents repositoryName (expectedBatches digests) outcomes) := by
  have hlen := answersDeletes_length E repositoryName _ _ _ hans
  rw [expectedBatches_length] at hlen
  have hloop := deleteBatchesLoop_answers E repositoryName digests outcomes 0 fuel 0 [] log
    (by omega) (by omega) (by rw [hlen]; exact hans)
  rw [hlen] at hloop
  simp only [Nat.mul_zero, Nat.zero_add, List.nil_append] at hloop
  have hpos : 0 < digests.length := List.length_pos.mpr hne
  have hpos' : digests.length ≠ 0 := by omega
  constructor
  · simp only [deleteImages, hrepo, hpos', or_self, if_false, hloop]
    rfl
  · intro daysOld
    simp only [deleteImagesByDate, hrepo, if_false, hpos, if_true, deleteSelected, hpos', hloop]
    rfl

/-- C1. Deletion batching: on a request with a non-empty repository name and `n > 0`
digests, whatever the delete calls answer, `deleteImages` and `deleteImagesByDate` (given
the same explicit digests) issue exactly `ceil (n / 100)` `BatchDeleteImage` calls and no
other call; call `k` carries the digests at positions `100 k` up to
`min (100 (k + 1)) n - 1` in input order, between 1 and 100 of them, and the digest lists
of all calls, joined, are the input list. -/
theorem deleteImages_batching (E : Env) (repositoryName : String) (digests : List String)
    (fuel : Nat) (log : List Event) (hrepo : repositoryName ≠ "") (hne : digests ≠ [])
    (hfuel : (digests.length + 99) / 100 < fuel) :
    ∃ (calls : List Event) (resp : Response),
      deleteImages E fuel (.ok ⟨repositoryName, digests⟩) log = some (resp, log ++ calls) ∧
      (∀ daysOld, deleteImagesByDate E fuel (.ok ⟨repositoryName, daysOld, digests⟩) log =
        some (resp, log ++ calls)) ∧
      calls.length = (digests.length + 99) / 100 ∧
      (∀ k, k < calls.length →
        (∃ result, calls[k]? = some (Event.BatchDeleteImage
          ⟨some repositoryName,
            (slice digests (100 * k) (min (100 * (k + 1)) digests.length)).map
              (fun digest => ⟨some digest, none⟩)⟩ result)) ∧
        1 ≤ (slice digests (100 * k) (min (100 * (k + 1)) digests.length)).length ∧
        (slice digests (100 * k) (min (100 * (k + 1)) digests.length)).length ≤ 100) ∧
      ((List.range calls.length).map
        (fun k => slice digests (100 * k) (min (100 * (k + 1)) digests.length))).flatten =
          digests := by
  obtain ⟨outcomes, hlen, hans⟩ :=
    answersDeletes_exists E repositoryName (expectedBatches digests) log
  rw [expectedBatches_length] at hlen
  obtain ⟨h1, h2⟩ := delete_handlers_answers E repositoryName digests outcomes fuel log
    hrepo hne hfuel hans
  have hcl : (deleteEvents repositoryName (expectedBatches digests) outcomes).length =
      (digests.length + 99) / 100 := by
    rw [deleteEvents_length _ _ _ (by rw [expectedBatches_length, hlen]),
      expectedBatches_length]; rfl
  refine ⟨_, _, h1, h2, hcl, ?_, ?_⟩
  · intro k hk
    rw [hcl] at hk
    obtain ⟨b, o, e1, _, e3⟩ := deleteEvents_at repositoryName (expectedBatches digests)
      outcomes k (by rw [expectedBatches_length, hlen]) (by rw [expectedBatches_length]; exact hk)
    rw [expectedBatches_at digests k hk] at e1
    cases e1
    exact ⟨⟨o, e3⟩, batchAt_length digests k hk⟩
  · rw [hcl]
    have := expectedBatches_join digests
    rw [expectedBatches_eq_range] at this
    exact this

theorem deleteImages_batching_witness :
    ∃ (r0 r1 r2 : Except String BatchDeleteImageOutput) (resp : Response),
      deleteImages sampleEnv 4 (.ok ⟨"app", digests250⟩) [] =
        some (resp,
          [Event.BatchDeleteImage (deleteInput "app" (slice digests250 0 100)) r0,
           Event.BatchDeleteImage (deleteInput "app" (slice digests250 100 200)) r1,
           Event.BatchDeleteImage (deleteInput "app" (slice digests250 200 250)) r2]) ∧
      (slice digests250 0 100).length = 100 ∧ (slice digests250 100 200).length = 100 ∧
      (slice digests250 200 250).length = 50 ∧
      slice digests250 0 100 ++ slice digests250 100 200 ++ slice digests250 200 250 =
        digests250 := by
  obtain ⟨calls, resp, h1, -, h3, h4, -⟩ :=
    deleteImages_batching sampleEnv "app" digests250 4 [] (by decide) (by decide) (by decide)
  have h3' : calls.length = 3 := h3
  match calls, h3', h4 with
  | [a, b, c], _, h4 =>
    obtain ⟨⟨r0, e0⟩, -⟩ := h4 0 (by simp)
    obtain ⟨⟨r1, e1⟩, -⟩ := h4 1 (by simp)
    obtain ⟨⟨r2, e2⟩, -⟩ := h4 2 (by simp)
    simp only [List.getElem?_cons_zero, List.getElem?_cons_succ, Option.some.injEq] at e0 e1 e2
    subst e0 e1 e2
    exact ⟨r0, r1, r2, resp, h1, by decide, by decide, by decide, by decide⟩

/-- C2. Partial-deletion accounting: on a valid request, for every outcome of every batch
call, all batches are called; `deleted` is the sum of the confirmed image ids of the
batches whose call succeeded (a failed call adds nothing and stops nothing); the error
list holds, in batch order, one entry with the 1-based range for each failed call and one
entry for each failure reported by a successful call; the response is 206 with the count
and the error list when the list is non-empty and 200 with the count otherwise. -/
theorem deletion_accounting (E : Env) (repositoryName : String) (digests : List String)
    (outcomes : List (Except String BatchDeleteImageOutput)) (fuel : Nat) (log : List Event)
    (hrepo : repositoryName ≠ "") (hne : digests ≠ [])
    (hfuel : numBatches digests.length < fuel)
    (hans : answersDeletes E repositoryName log (expectedBatches digests) outcomes) :
    ∃ resp : Response,
      deleteImages E fuel (.ok ⟨repositoryName, digests⟩) log =
        some (resp, log ++ deleteEvents repositoryName (expectedBatches digests) outcomes) ∧
      (∀ daysOld, deleteImagesByDate E fuel (.ok ⟨repositoryName, daysOld, digests⟩) log =
        some (resp, log ++ deleteEvents repositoryName (expectedBatches digests) outcomes)) ∧
      (errorEntries digests.length 0 outcomes = [] →
        resp = ⟨200, .deletion "Images deleted successfully"
          (outcomes.map confirmedCount).sum none⟩) ∧
      (errorEntries digests.length 0 outcomes ≠ [] →
        resp = ⟨206, .deletion
          ("Partially completed: " ++ toString (outcomes.map confirmedCount).sum ++
            " images deleted, but encountered " ++
            toString (errorEntries digests.length 0 outcomes).length ++ " errors")
          (outcomes.map confirmedCount).sum
          (some (errorEntries digests.length 0 outcomes))⟩) := by
  obtain ⟨h1, h2⟩ := delete_handlers_answers E repositoryName digests outcomes fuel log
    hrepo hne hfuel hans
  refine ⟨_, h1, h2, ?_, ?_⟩
  · intro h
    simp [deletionResponse, h, respondJSON, StatusOK]
  · intro h
    have : 0 < (errorEntries digests.length 0 outcomes).length := List.length_pos.mpr h
    simp [deletionResponse, this, respondJSON, StatusPartialContent]

theorem deletion_accounting_witness :
    deleteImages sampleEnv 4 (.ok ⟨"app", digests250⟩) [] =
      some (⟨206, .deletion "Partially completed: 150 images deleted, but encountered 1 errors"
          150 (some ["Failed to delete batch 101-200: ThrottlingException"])⟩,
        deleteEvents "app" [slice digests250 0 100, slice digests250 100 200,
          slice digests250 200 250] sampleOutcomes) := by
  obtain ⟨resp, h1, -, -, h4⟩ := deletion_accounting sampleEnv "app" digests250 sampleOutcomes
    4 [] (by decide) (by decide) (by decide) ⟨rfl, rfl, rfl, trivial⟩
  rw [h1, h4 (by decide)]
  rfl

theorem imageInfoOf_lastPull (repoName : String) (d : ImageDetail) :
    (imageInfoOf repoName d).LastPullDate = some (lastPullOf d) ∧
      (imageInfoOf repoName d).ImagePushedAt = d.ImagePushedAt ∧
      (imageInfoOf repoName d).ImageDigest = d.ImageDigest ∧
      (imageInfoOf repoName d).ImageSize = d.ImageSizeInBytes ∧
      (imageInfoOf repoName d).RepositoryName = repoName := by
  unfold imageInfoOf lastPullOf
  cases d.LastRecordedPullTime <;> (split <;> simp)

theorem selectByDate_imageInfoOf (repoName : String) (cutoff : Time) (details : List ImageDetail) :
    selectByDate (details.map (imageInfoOf repoName)) cutoff =
      (details.filter (fun d => decide (lastPullOf d < cutoff))).map (fun d => d.ImageDigest) := by
  induction details with
  | nil => rfl
  | cons d rest ih =>
    unfold selectByDate at ih ⊢
    rw [List.map_cons, List.filterMap_cons, ih]
    obtain ⟨h1, -, h3, -⟩ := imageInfoOf_lastPull repoName d
    simp only [h1, h3, Time.Before, List.filter_cons]
    by_cases hlt : lastPullOf d < cutoff <;> simp [hlt]

/-- The start of `deleteImagesByDate` on a valid request without explicit digests, up to
the hand-over of the candidates selected by date. -/
theorem deleteImagesByDate_by_date (E : Env) (fuel : Nat) (repositoryName : String)
    (daysOld : Int) (pages : List DescribeImagesOutput) (log : List Event)
    (hrepo : repositoryName ≠ "") (hdays : 0 < daysOld)
    (hserves : servesImagePages E repositoryName log none pages) (hfuel : pages.length ≤ fuel) :
    deleteImagesByDate E fuel (.ok ⟨repositoryName, daysOld, []⟩) log =
      deleteSelected E fuel repositoryName
        (((pageDetails pages).filter (fun d => decide (lastPullOf d <
            E.AddDate (E.Now (log ++ imagePageEvents repositoryName none pages)) 0 0 (-daysOld)))).map
          (fun d => d.ImageDigest))
        (log ++ imagePageEvents repositoryName none pages ++
          [Event.Now (E.Now (log ++ imagePageEvents repositoryName none pages))]) := by
  have hfetch := fetchImagesLoop_serves E repositoryName pages fuel none [] log hserves hfuel
  have hd : ¬ daysOld ≤ 0 := by omega
  simp only [deleteImagesByDate, hrepo, if_false, List.length_nil, Nat.lt_irrefl, hd,
    fetchImages, hfetch, List.nil_append, selectByDate_imageInfoOf]

/-- C4 as written fails: `deleteImages` answers an empty digest set with an error, and
`deleteImagesByDate` lists the repository and deletes by date. -/
theorem empty_digests_counterexample :
    deleteImages sampleEnv 4 (.ok ⟨"app", []⟩) [] =
        some (⟨400, .error ⟨"repositoryName and imageDigests are required"⟩⟩, []) ∧
      deleteImagesByDate sampleEnv 4 (.ok ⟨"app", 30, []⟩) [] =
        some (⟨200, .deletion "Images deleted successfully" 1 none⟩,
          imagePageEvents "app" none appPages ++
            [Event.Now sampleNow,
             Event.BatchDeleteImage (deleteInput "app" ["sha256:b"])
               (.ok ⟨[⟨some "sha256:b", none⟩], []⟩)]) :=
  ⟨rfl, rfl⟩

/-- C4, amended. A request whose explicit digest set is empty leads to no delete call by
itself. `deleteImages` rejects it with status 400 and makes no remote call.
`deleteImagesByDate` treats it as a request without digests: with `daysOld <= 0` it
rejects it with status 400 and makes no remote call; with `daysOld > 0` it lists the
images of the repository, and when no image has its last-pull timestamp before the cutoff
it makes no delete call and reports success with zero deletions. -/
theorem empty_digests_amended (E : Env) (fuel : Nat) (repositoryName : String)
    (log : List Event) (hrepo : repositoryName ≠ "") :
    deleteImages E fuel (.ok ⟨repositoryName, []⟩) log =
        some (⟨400, .error ⟨"repositoryName and imageDigests are required"⟩⟩, log) ∧
      (∀ daysOld : Int, daysOld ≤ 0 →
        deleteImagesByDate E fuel (.ok ⟨repositoryName, daysOld, []⟩) log =
          some (⟨400, .error ⟨"daysOld (> 0) is required when imageDigests is not provided"⟩⟩,
            log)) ∧
      (∀ (daysOld : Int) (pages : List DescribeImagesOutput), 0 < daysOld →
        servesImagePages E repositoryName log none pages → pages.length ≤ fuel →
        (∀ d ∈ pageDetails pages, ¬ lastPullOf d <
          E.AddDate (E.Now (log ++ imagePageEvents repositoryName none pages)) 0 0 (-daysOld)) →
        deleteImagesByDate E fuel (.ok ⟨repositoryName, daysOld, []⟩) log =
          some (⟨200, .deletion "No images found matching criteria" 0 none⟩,
            log ++ imagePageEvents repositoryName none pages ++
              [Event.Now (E.Now (log ++ imagePageEvents repositoryName none pages))])) := by
  refine ⟨?_, ?_, ?_⟩
  · simp [deleteImages, respondError, respondJSON, StatusBadRequest]
  · intro daysOld hd
    simp [deleteImagesByDate, hrepo, hd, respondError, respondJSON, StatusBadRequest]
  · intro daysOld pages hd hserves hfuel hnone
    rw [deleteImagesByDate_by_date E fuel repositoryName daysOld pages log hrepo hd hserves hfuel]
    have : (pageDetails pages).filter (fun d => decide (lastPullOf d <
        E.AddDate (E.Now (log ++ imagePageEvents repositoryName none pages)) 0 0 (-daysOld))) = [] := by
      rw [List.filter_eq_nil_iff]
      intro d hd'
      simpa using hnone d hd'
    rw [this]
    simp [deleteSelected, respondJSON, StatusOK]

theorem empty_digests_amended_witness :
    deleteImages sampleEnv 4 (.ok ⟨"web", []⟩) [] =
        some (⟨400, .error ⟨"repositoryName and imageDigests are required"⟩⟩, []) ∧
      deleteImagesByDate sampleEnv 4 (.ok ⟨"web", 0, []⟩) [] =
        some (⟨400, .error ⟨"daysOld (> 0) is required when imageDigests is not provided"⟩⟩,
          []) ∧
      deleteImagesByDate sampleEnv 4 (.ok ⟨"web", 30, []⟩) [] =
        some (⟨200, .deletion "No images found matching criteria" 0 none⟩,
          [Event.DescribeImages ⟨some "web", some 100, none⟩ (.ok ⟨[imgD], none⟩),
           Event.Now sampleNow]) :=
  have h := empty_digests_amended sampleEnv 4 "web" [] (by decide)
  ⟨h.1, h.2.1 0 (by decide), h.2.2 30 [⟨[imgD], none⟩] (by decide) ⟨rfl, rfl⟩ (by decide)
    (by decide)⟩

theorem validate_empty_name (tok : Option String) :
    DescribeImagesInput.Validate ⟨some "", some 100, tok⟩ =
      some ("InvalidParameter: 1 validation error(s) found.\n" ++
        "- minimum field size of 2, DescribeImagesInput.RepositoryName.\n") := by
  simp only [DescribeImagesInput.Validate]
  decide

/-- The first listing call of `fetchImages` for the empty repository name is answered by
the parameter validation of the client. -/
theorem fetchImages_empty_name (E : Env) (fuel : Nat) (log : List Event)
    (hE : E.ValidatesParams) :
    fetchImages E (fuel + 1) "" log =
      some (.error ("failed to describe images for repo : " ++
          ("InvalidParameter: 1 validation error(s) found.\n" ++
            "- minimum field size of 2, DescribeImagesInput.RepositoryName.\n")),
        log ++ [Event.DescribeImages ⟨some "", some 100, none⟩
          (.error ("InvalidParameter: 1 validation error(s) found.\n" ++
            "- minimum field size of 2, DescribeImagesInput.RepositoryName.\n"))]) := by
  have h := hE log ⟨some "", some 100, none⟩ _ (validate_empty_name none)
  simp only [fetchImages, fetchImagesLoop, h]
  rfl

/-- C5. Invalid input is rejected before any request to the registry, with a client that
validates parameters as aws-sdk-go does. Without a repository name `getImages`,
`deleteImages` and `deleteImagesByDate` answer 400 with a message naming the missing
parameter and call nothing; `getMostDownloaded` and `getLargestImages` hand the empty
name to `DescribeImages`, whose parameter validation refuses it without sending a
request, and answer with an error response that carries the violated constraint on
`RepositoryName`. `deleteImagesByDate` without explicit digests and with
`daysOld <= 0` answers 400 and calls nothing. -/
theorem invalid_input_rejected (E : Env) (S : SliceSorter) (fuel : Nat) (log : List Event)
    (hE : E.ValidatesParams) :
    (∀ limit, getImages E fuel ⟨"", limit⟩ log =
      some (⟨400, .error ⟨"repository parameter is required"⟩⟩, log)) ∧
    (∀ limit, ∃ final,
      getMostDownloaded E S (fuel + 1) ⟨"", limit⟩ log =
        some (⟨500, .error ⟨"Failed to fetch images: failed to describe images for repo : " ++
          ("InvalidParameter: 1 validation error(s) found.\n" ++
            "- minimum field size of 2, DescribeImagesInput.RepositoryName.\n")⟩⟩, final) ∧
      final.filter Event.sent = log.filter Event.sent) ∧
    (∀ limit, ∃ final,
      getLargestImages E S (fuel + 1) ⟨"", limit⟩ log =
        some (⟨500, .error ⟨"Failed to fetch images: failed to describe images for repo : " ++
          ("InvalidParameter: 1 validation error(s) found.\n" ++
            "- minimum field size of 2, DescribeImagesInput.RepositoryName.\n")⟩⟩, final) ∧
      final.filter Event.sent = log.filter Event.sent) ∧
    (∀ digests, deleteImages E fuel (.ok ⟨"", digests⟩) log =
      some (⟨400, .error ⟨"repositoryName and imageDigests are required"⟩⟩, log)) ∧
    (∀ daysOld digests, deleteImagesByDate E fuel (.ok ⟨"", daysOld, digests⟩) log =
      some (⟨400, .error ⟨"repositoryName is required"⟩⟩, log)) ∧
    (∀ (repositoryName : String) (daysOld : Int), repositoryName ≠ "" → daysOld ≤ 0 →
      deleteImagesByDate E fuel (.ok ⟨repositoryName, daysOld, []⟩) log =
        some (⟨400, .error ⟨"daysOld (> 0) is required when imageDigests is not provided"⟩⟩,
          log)) := by
  have hfetch := fetchImages_empty_name E fuel log hE
  have hsent : (log ++ [Event.DescribeImages ⟨some "", some 100, none⟩
      (.error ("InvalidParameter: 1 validation error(s) found.\n" ++
        "- minimum field size of 2, DescribeImagesInput.RepositoryName.\n"))]).filter
        Event.sent = log.filter Event.sent := by
    have hns : ∀ result, Event.sent (Event.DescribeImages ⟨some "", some 100, none⟩ result) =
        false := by
      intro result
      simp only [Event.sent, validate_empty_name]
      rfl
    rw [List.filter_append, List.filter_cons, hns]
    simp
  refine ⟨?_, ?_, ?_, ?_, ?_, ?_⟩
  · intro limit
    simp [getImages, respondError, respondJSON, StatusBadRequest]
  · intro limit
    refine ⟨_, ?_, hsent⟩
    simp only [getMostDownloaded, hfetch]
    rfl
  · intro limit
    refine ⟨_, ?_, hsent⟩
    simp only [getLargestImages, hfetch]
    rfl
  · intro digests
    simp [deleteImages, respondError, respondJSON, StatusBadRequest]
  · intro daysOld digests
    simp [deleteImagesByDate, respondError, respondJSON, StatusBadRequest]
  · intro repositoryName daysOld hrepo hd
    simp [deleteImagesByDate, hrepo, hd, respondError, respondJSON, StatusBadRequest]

theorem sampleEnv_validatesParams : sampleEnv.ValidatesParams := by
  intro log input err h
  simp [sampleEnv, h]

theorem invalid_input_rejected_witness :
    getImages sampleEnv 3 ⟨"", "5"⟩ [] =
      some (⟨400, .error ⟨"repository parameter is required"⟩⟩, []) ∧
    (∃ final,
      getMostDownloaded sampleEnv insertionSorter 4 ⟨"", ""⟩ [] =
        some (⟨500, .error ⟨"Failed to fetch images: failed to describe images for repo : " ++
          ("InvalidParameter: 1 validation error(s) found.\n" ++
            "- minimum field size of 2, DescribeImagesInput.RepositoryName.\n")⟩⟩, final) ∧
      final.filter Event.sent = []) ∧
    deleteImagesByDate sampleEnv 3 (.ok ⟨"app", 0, []⟩) [] =
      some (⟨400, .error ⟨"daysOld (> 0) is required when imageDigests is not provided"⟩⟩,
        []) :=
  have h := invalid_input_rejected sampleEnv insertionSorter 3 [] sampleEnv_validatesParams
  ⟨h.1 "5", h.2.1 "", h.2.2.2.2.2 "app" 0 (by decide) (by decide)⟩

theorem expectedBatches_nil : expectedBatches [] = [] := rfl

/-- The tail of `deleteImagesByDate` for any candidate list, whatever the delete calls
answer: one call for each batch of the candidates, and none for an empty list. -/
theorem deleteSelected_calls (E : Env) (fuel : Nat) (repositoryName : String)
    (candidates : List String) (log : List Event)
    (hfuel : numBatches candidates.length < fuel) :
    ∃ (outcomes : List (Except String BatchDeleteImageOutput)) (resp : Response),
      outcomes.length = numBatches candidates.length ∧
      deleteSelected E fuel repositoryName candidates log =
        some (resp, log ++ deleteEvents repositoryName (expectedBatches candidates) outcomes) := by
  obtain ⟨outcomes, hlen, hans⟩ :=
    answersDeletes_exists E repositoryName (expectedBatches candidates) log
  rw [expectedBatches_length] at hlen
  by_cases hc : candidates = []
  · subst hc
    refine ⟨[], respondJSON StatusOK (.deletion "No images found matching criteria" 0 none),
      rfl, ?_⟩
    simp [deleteSelected, deleteEvents]
  · have hloop := deleteBatchesLoop_answers E repositoryName candidates outcomes 0 fuel 0 [] log
      (by omega) (by omega) (by rw [hlen]; exact hans)
    rw [hlen] at hloop
    simp only [Nat.mul_zero, Nat.zero_add, List.nil_append] at hloop
    have hpos : candidates.length ≠ 0 := by
      intro h; exact hc (List.length_eq_zero.mp h)
    refine ⟨outcomes, deletionResponse (outcomes.map confirmedCount).sum
      (errorEntries candidates.length 0 outcomes), hlen, ?_⟩
    simp only [deleteSelected, hpos, if_false, hloop]
    rfl

theorem servesImagePages_length_pos (E : Env) (repoName : String) (log : List Event)
    (tok : Option String) (pages : List DescribeImagesOutput)
    (h : servesImagePages E repoName log tok pages) : 0 < pages.length := by
  cases pages with
  | nil => exact absurd h (by simp [servesImagePages])
  | cons p ps => simp

/-- The date filter of `deleteImagesByDate` for the cutoff that the calendar of the
environment computes: on a request with a repository name, no explicit digests and
`daysOld > 0`, the candidates are the digests, in inventory order, of exactly the images
whose last-pull timestamp (reported pull time, or push time when none is reported) is
strictly before `AddDate(now, 0, 0, -daysOld)`; these and no others are handed to the
delete calls. -/
theorem date_selection (E : Env) (fuel : Nat) (repositoryName : String) (daysOld : Int)
    (pages : List DescribeImagesOutput) (log : List Event)
    (hrepo : repositoryName ≠ "") (hdays : 0 < daysOld)
    (hserves : servesImagePages E repositoryName log none pages)
    (hfuel : pages.length + (pageDetails pages).length ≤ fuel) :
    ∃ (fetched : List Event) (cutoff : Time) (candidates : List String) (calls : List Event)
      (resp : Response),
      fetched = log ++ imagePageEvents repositoryName none pages ∧
      cutoff = E.AddDate (E.Now fetched) 0 0 (-daysOld) ∧
      candidates = ((pageDetails pages).filter (fun d => decide (lastPullOf d < cutoff))).map
        (fun d => d.ImageDigest) ∧
      fetchImages E fuel repositoryName log =
        some (.ok ((pageDetails pages).map (imageInfoOf repositoryName)), fetched) ∧
      selectByDate ((pageDetails pages).map (imageInfoOf repositoryName)) cutoff = candidates ∧
      deleteImagesByDate E fuel (.ok ⟨repositoryName, daysOld, []⟩) log =
        some (resp, fetched ++ [Event.Now (E.Now fetched)] ++ calls) ∧
      calls.length = (candidates.length + 99) / 100 ∧
      (∀ k, k < calls.length → ∃ result, calls[k]? = some (Event.BatchDeleteImage
        ⟨some repositoryName,
          (slice candidates (100 * k) (min (100 * (k + 1)) candidates.length)).map
            (fun digest => ⟨some digest, none⟩)⟩ result)) ∧
      ((List.range calls.length).map
        (fun k => slice candidates (100 * k) (min (100 * (k + 1)) candidates.length))).flatten =
          candidates := by
  have hpos := servesImagePages_length_pos E repositoryName log none pages hserves
  have hfetch := fetchImagesLoop_serves E repositoryName pages fuel none [] log hserves
    (by omega)
  have hstart := deleteImagesByDate_by_date E fuel repositoryName daysOld pages log hrepo hdays
    hserves (by omega)
  generalize hc : ((pageDetails pages).filter (fun d => decide (lastPullOf d <
    E.AddDate (E.Now (log ++ imagePageEvents repositoryName none pages)) 0 0 (-daysOld)))).map
      (fun d => d.ImageDigest) = candidates at hstart
  have hcl : candidates.length ≤ (pageDetails pages).length := by
    rw [← hc, List.length_map]; exact List.length_filter_le _ _
  obtain ⟨outcomes, resp, hlen, hsel⟩ := deleteSelected_calls E fuel repositoryName candidates
    (log ++ imagePageEvents repositoryName none pages ++
      [Event.Now (E.Now (log ++ imagePageEvents repositoryName none pages))])
    (by unfold numBatches; omega)
  have hcalls : (deleteEvents repositoryName (expectedBatches candidates) outcomes).length =
      (candidates.length + 99) / 100 := by
    rw [deleteEvents_length _ _ _ (by rw [expectedBatches_length, hlen]),
      expectedBatches_length]; rfl
  refine ⟨_, _, candidates, deleteEvents repositoryName (expectedBatches candidates) outcomes,
    resp, rfl, rfl, hc.symm, ?_, ?_, ?_, hcalls, ?_, ?_⟩
  · simpa [fetchImages] using hfetch
  · rw [selectByDate_imageInfoOf, hc]
  · rw [hstart, hsel]
  · intro k hk
    rw [hcalls] at hk
    obtain ⟨b, o, e1, _, e3⟩ := deleteEvents_at repositoryName (expectedBatches candidates)
      outcomes k (by rw [expectedBatches_length, hlen])
      (by rw [expectedBatches_length]; exact hk)
    rw [expectedBatches_at candidates k hk] at e1
    cases e1
    exact ⟨o, e3⟩
  · rw [hcalls]
    have := expectedBatches_join candidates
    rw [expectedBatches_eq_range] at this
    exact this

theorem date_selection_witness :
    (lastPullOf imgA = sampleNow - 1 * day ∧ lastPullOf imgC = sampleNow - 10 * day ∧
      lastPullOf imgB = sampleNow - 40 * day) ∧
    ∃ (result : Except String BatchDeleteImageOutput) (resp : Response),
      deleteImagesByDate sampleEnv 6 (.ok ⟨"app", 30, []⟩) [] =
        some (resp, imagePageEvents "app" none appPages ++ [Event.Now sampleNow] ++
          [Event.BatchDeleteImage ⟨some "app", [⟨some imgB.ImageDigest, none⟩]⟩ result]) := by
  refine ⟨⟨rfl, rfl, rfl⟩, ?_⟩
  obtain ⟨fetched, cutoff, candidates, calls, resp, h1, h2, h3, -, -, h6, h7, h8, -⟩ :=
    date_selection sampleEnv 6 "app" 30 appPages [] (by decide) (by decide)
      ⟨rfl, by decide, rfl, by decide, rfl, rfl⟩ (by decide)
  subst h1 h2
  have hcand : candidates = ["sha256:b"] := by rw [h3]; decide
  subst hcand
  have h7' : calls.length = 1 := h7
  match calls, h7', h8 with
  | [c], _, h8 =>
    obtain ⟨result, e⟩ := h8 0 (by simp)
    simp only [List.getElem?_cons_zero, Option.some.injEq] at e
    subst e
    exact ⟨result, resp, h6⟩

/-- While the seconds stay in the `int64` range, `AddDate(0, 0, days)` in UTC moves a
time by exactly `days` times 24 hours. -/
theorem Time.AddDays_in_range (t days : Int)
    (h1 : -2 ^ 63 ≤ t / 1000000000 + days * 86400)
    (h2 : t / 1000000000 + days * 86400 < 2 ^ 63) :
    Time.AddDays t days = t + days * 86400 * 1000000000 := by
  show ((t / 1000000000 + days * 86400 + 2 ^ 63) % 2 ^ 64 - 2 ^ 63) * 1000000000 +
    t % 1000000000 = (t + days * 86400 * 1000000000 : Int)
  omega

/-- Moving back by `2 ^ 63 - 1` days wraps around to one day ahead. -/
theorem Time.AddDays_overflow (t : Int)
    (h1 : -2 ^ 63 ≤ t / 1000000000 + 86400) (h2 : t / 1000000000 + 86400 < 2 ^ 63) :
    Time.AddDays t (-9223372036854775807) = t + 86400 * 1000000000 := by
  show ((t / 1000000000 + (-9223372036854775807) * 86400 + 2 ^ 63) % 2 ^ 64 - 2 ^ 63) *
    1000000000 + t % 1000000000 = (t + 86400 * 1000000000 : Int)
  omega

/-- C3 at the failing input: with `daysOld = 2 ^ 63 - 1` the cutoff that `AddDate`
computes is one day after the clock reading, not `2 ^ 63 - 1` days before it, so of the
images last pulled 1 day, 10 days and 40 days ago all three are selected and deleted,
where no image is that old; with `daysOld = 30` the cutoff is 30 days before the clock
reading. -/
theorem date_selection_overflow :
    sampleEnv.AddDate sampleNow 0 0 (-30) = sampleNow - 30 * day ∧
    sampleEnv.AddDate sampleNow 0 0 (-9223372036854775807) = sampleNow + 1 * day ∧
    lastPullOf imgA = sampleNow - 1 * day ∧ lastPullOf imgC = sampleNow - 10 * day ∧
    lastPullOf imgB = sampleNow - 40 * day ∧
    deleteImagesByDate sampleEnv 6 (.ok ⟨"app", 9223372036854775807, []⟩) [] =
      some (⟨200, .deletion "Images deleted successfully" 3 none⟩,
        imagePageEvents "app" none appPages ++
          [Event.Now sampleNow,
           Event.BatchDeleteImage (deleteInput "app" ["sha256:a", "sha256:b", "sha256:c"])
             (.ok ⟨[⟨some "sha256:a", none⟩, ⟨some "sha256:b", none⟩,
               ⟨some "sha256:c", none⟩], []⟩)]) :=
  ⟨by decide, by decide, rfl, rfl, rfl, rfl⟩

/-- A computation of `getGlobalStats` past an absent or expired cache entry, given the
enumerated repositories and the outcome of every fetch. -/
theorem getGlobalStats_fresh (E : Env) (S : SliceSorter) (fuel : Nat) (cache : cachedGlobalStats)
    (log listed fetched : List Event) (allRepos : List String)
    (outcomes : List (Except String (List ImageInfo)))
    (hfresh : cache.expiresAt = 0 ∨ ¬ E.Now log < cache.expiresAt)
    (hlist : describeRepositoriesLoop E fuel none [] (logAfterCheck E cache log) =
      some (.ok allRepos, listed))
    (hfetch : fetchesYield E fuel listed allRepos outcomes fetched) :
    getGlobalStats E S fuel cache log =
      some (⟨200, .globalStats ⟨allRepos.length,
            ((summaries allRepos outcomes).map (·.ImageCount)).sum,
            wrapInt64 ((summaries allRepos outcomes).map (·.Size)).sum,
            S.sort repoSizeLess (summaries allRepos outcomes)⟩⟩,
        ⟨⟨allRepos.length,
            ((summaries allRepos outcomes).map (·.ImageCount)).sum,
            wrapInt64 ((summaries allRepos outcomes).map (·.Size)).sum,
            S.sort repoSizeLess (summaries allRepos outcomes)⟩,
          E.Now fetched + 12 * 3600 * 1000000000⟩,
        fetched ++ [Event.Now (E.Now fetched)]) := by
  obtain ⟨acc, h1, h2, h3, h4⟩ := aggregateLoop_yield E fuel allRepos outcomes ⟨0, 0, 0, 0, []⟩ 0
    listed fetched hfetch (by simp [wrapInt64])
  simp only [Nat.zero_add, Int.zero_add, List.nil_append] at h2 h3 h4
  have hcheck : (if Time.IsZero cache.expiresAt then (false, log)
      else (Time.Before (E.Now log) cache.expiresAt, log ++ [Event.Now (E.Now log)])) =
      (false, logAfterCheck E cache log) := by
    unfold logAfterCheck Time.IsZero Time.Before
    by_cases hz : cache.expiresAt = 0
    · simp [hz]
    · have hn : ¬ E.Now log < cache.expiresAt := hfresh.resolve_left hz
      simp [hz, hn]
  unfold getGlobalStats
  simp only [hcheck, Bool.false_eq_true, if_false, hlist, h1, h2, h3, h4]
  rfl

/-- C6. Pagination completeness: when the registry answers the listing with `N >= 1`
pages, each but the last carrying a next cursor, `fetchImages` issues exactly `N` calls,
the first without a cursor and each later one with the cursor of the page before, and
returns one record for each image detail of every page, in page order and in the order
within the page; the loop over the repository listing, in `listRepositories` and at the
head of `getGlobalStats`, does the same with the repository names. -/
theorem pagination_completeness (E : Env) (fuel : Nat) (repoName : String)
    (imagePages : List DescribeImagesOutput) (repositoryPages : List DescribeRepositoriesOutput)
    (log : List Event)
    (himages : servesImagePages E repoName log none imagePages)
    (hrepos : servesRepositoryPages E log none repositoryPages)
    (hfuel : imagePages.length ≤ fuel ∧ repositoryPages.length ≤ fuel) :
    fetchImages E fuel repoName log =
        some (.ok ((imagePages.flatMap (fun p => p.ImageDetails)).map (imageInfoOf repoName)),
          log ++ imagePageEvents repoName none imagePages) ∧
      (imagePageEvents repoName none imagePages).length = imagePages.length ∧
      describeRepositoriesLoop E fuel none [] log =
        some (.ok (repositoryPages.flatMap
            (fun p => p.Repositories.map (fun repo => repo.RepositoryName))),
          log ++ repositoryPageEvents none repositoryPages) ∧
      listRepositories E fuel log =
        some (⟨200, .repositories (repositoryPages.flatMap
            (fun p => p.Repositories.map (fun repo => repo.RepositoryName)))⟩,
          log ++ repositoryPageEvents none repositoryPages) ∧
      (repositoryPageEvents none repositoryPages).length = repositoryPages.length ∧
      (∀ (S : SliceSorter) (stats : GlobalStats) (outcomes : List (Except String (List ImageInfo)))
        (fetched : List Event),
        fetchesYield E fuel (log ++ repositoryPageEvents none repositoryPages)
          (repositoryPages.flatMap (fun p => p.Repositories.map (fun repo => repo.RepositoryName)))
          outcomes fetched →
        ∃ (result : GlobalStats) (cache : cachedGlobalStats),
          getGlobalStats E S fuel ⟨stats, 0⟩ log =
            some (⟨200, .globalStats result⟩, cache, fetched ++ [Event.Now (E.Now fetched)]) ∧
          result.TotalRepositories = (repositoryPages.flatMap
            (fun p => p.Repositories.map (fun repo => repo.RepositoryName))).length) := by
  have h1 := fetchImagesLoop_serves E repoName imagePages fuel none [] log himages hfuel.1
  have h2 := describeRepositoriesLoop_serves E repositoryPages fuel none [] log hrepos hfuel.2
  simp only [List.nil_append] at h1 h2
  refine ⟨h1, imagePageEvents_length _ _ _, h2, ?_, repositoryPageEvents_length _ _, ?_⟩
  · simp only [listRepositories, h2]
    rfl
  · intro S stats outcomes fetched hfetch
    exact ⟨_, _, getGlobalStats_fresh E S fuel ⟨stats, 0⟩ log _ fetched _ outcomes (Or.inl rfl)
      h2 hfetch, rfl⟩

theorem pagination_completeness_witness :
    fetchImages sampleEnv 3 "app" [] =
        some (.ok [imageInfoOf "app" imgA, imageInfoOf "app" imgB, imageInfoOf "app" imgC],
          [Event.DescribeImages ⟨some "app", some 100, none⟩ (.ok ⟨[imgA, imgB], some "p1"⟩),
           Event.DescribeImages ⟨some "app", some 100, some "p1"⟩ (.ok ⟨[], some "p2"⟩),
           Event.DescribeImages ⟨some "app", some 100, some "p2"⟩ (.ok ⟨[imgC], none⟩)]) ∧
      listRepositories sampleEnv 3 [] =
        some (⟨200, .repositories ["app", "db", "web"]⟩,
          [Event.DescribeRepositories ⟨some 100, none⟩ (.ok ⟨[⟨"app"⟩], some "r1"⟩),
           Event.DescribeRepositories ⟨some 100, some "r1"⟩
             (.ok ⟨[⟨"db"⟩, ⟨"web"⟩], none⟩)]) :=
  have h := pagination_completeness sampleEnv 3 "app" appPages repoPages []
    ⟨rfl, by decide, rfl, by decide, rfl, rfl⟩ ⟨rfl, by decide, rfl, rfl⟩ (by decide)
  ⟨h.1, h.2.2.2.1⟩

/-- C7. Last-pull invariant: the records `fetchImages` returns stand one to one, in
order, against the image details the registry reported during the call, and each record
has a `LastPullDate` that is present: it is the pull time the registry reported for that
very detail when it reported one, and otherwise the record's own `ImagePushedAt`, which
is the push time the registry reported for it. On a fetched inventory the comparison of
`sortByLastPullTime` therefore always comes down to the comparison of two timestamps, and
the date filter always reaches its test. -/
theorem last_pull_invariant (E : Env) (fuel : Nat) (repoName : String) (log final : List Event)
    (images : List ImageInfo)
    (hfetch : fetchImages E fuel repoName log = some (.ok images, final)) :
    ∃ evs, final = log ++ evs ∧ answeredBy E log evs ∧
      List.Forall₂
        (fun (d : ImageDetail) (img : ImageInfo) =>
          img.LastPullDate ≠ none ∧
          (∀ t, d.LastRecordedPullTime = some t → img.LastPullDate = some t) ∧
          (d.LastRecordedPullTime = none → img.LastPullDate = some img.ImagePushedAt) ∧
          img.ImagePushedAt = d.ImagePushedAt)
        (reportedDetails evs) images ∧
      (∀ a ∈ images, ∀ b ∈ images, ∃ ta tb, a.LastPullDate = some ta ∧
        b.LastPullDate = some tb ∧ lastPullLess a b = Time.After ta tb) ∧
      (∀ img ∈ images, ∀ cutoff, ∃ t, img.LastPullDate = some t ∧
        selectByDate [img] cutoff =
          if Time.Before t cutoff then [img.ImageDigest] else []) := by
  obtain ⟨evs, h1, h2, h3⟩ :=
    fetchImagesLoop_reported E repoName fuel none [] log images final hfetch
  simp only [List.nil_append] at h2
  have hsome : ∀ img ∈ images, ∃ d : ImageDetail, img = imageInfoOf repoName d ∧
      img.LastPullDate = some (lastPullOf d) := by
    intro img himg
    rw [h2, List.mem_map] at himg
    obtain ⟨d, -, rfl⟩ := himg
    exact ⟨d, rfl, (imageInfoOf_lastPull repoName d).1⟩
  refine ⟨evs, h1, h3, ?_, ?_, ?_⟩
  · rw [h2]
    apply forall₂_map_of_forall
    intro d
    obtain ⟨hd, hp, -⟩ := imageInfoOf_lastPull repoName d
    refine ⟨by rw [hd]; simp, ?_, ?_, hp⟩
    · intro t ht; rw [hd, lastPullOf, ht]
    · intro ht; rw [hd, lastPullOf, ht, hp]
  · intro a ha b hb
    obtain ⟨da, -, hda⟩ := hsome a ha
    obtain ⟨db, -, hdb⟩ := hsome b hb
    exact ⟨_, _, hda, hdb, by simp [lastPullLess, hda, hdb]⟩
  · intro img himg cutoff
    obtain ⟨d, -, hd⟩ := hsome img himg
    refine ⟨_, hd, ?_⟩
    simp only [selectByDate, List.filterMap_cons, hd, List.filterMap_nil]
    split <;> simp_all

theorem last_pull_invariant_witness :
    List.Forall₂
        (fun (d : ImageDetail) (img : ImageInfo) =>
          img.LastPullDate ≠ none ∧
          (∀ t, d.LastRecordedPullTime = some t → img.LastPullDate = some t) ∧
          (d.LastRecordedPullTime = none → img.LastPullDate = some img.ImagePushedAt) ∧
          img.ImagePushedAt = d.ImagePushedAt)
        [imgA, imgB, imgC]
        [imageInfoOf "app" imgA, imageInfoOf "app" imgB, imageInfoOf "app" imgC] ∧
    (imageInfoOf "app" imgA).LastPullDate = some (sampleNow - 1 * day) ∧
    (imageInfoOf "app" imgB).LastPullDate = some (sampleNow - 40 * day) := by
  obtain ⟨evs, h1, -, h3, -⟩ := last_pull_invariant sampleEnv 3 "app" []
    (imagePageEvents "app" none appPages)
    [imageInfoOf "app" imgA, imageInfoOf "app" imgB, imageInfoOf "app" imgC] rfl
  have hevs : evs = imagePageEvents "app" none appPages := by
    simpa using h1.symm
  subst hevs
  exact ⟨h3, rfl, rfl⟩

/-- C8. Global statistics: in a computation past the cache, for every enumerated
repository list and every outcome of the fetch of each repository, `getGlobalStats`
answers 200 with statistics in which `TotalRepositories` counts all enumerated
repositories, failed ones included; `TopRepositoriesBySize` holds exactly one summary for
each repository fetched successfully and none for a failed one, with the repository's
image count and the sum of its image sizes; `TotalImages` and `TotalSize` are the sums of
the counts and sizes of the summaries; and the summaries stand in order of non-increasing
size. Sums of sizes are `int64` sums. -/
theorem global_stats_aggregation (E : Env) (S : SliceSorter) (fuel : Nat)
    (cache : cachedGlobalStats) (log listed fetched : List Event) (allRepos : List String)
    (outcomes : List (Except String (List ImageInfo)))
    (hfresh : cache.expiresAt = 0 ∨ ¬ E.Now log < cache.expiresAt)
    (hlist : describeRepositoriesLoop E fuel none [] (logAfterCheck E cache log) =
      some (.ok allRepos, listed))
    (hfetch : fetchesYield E fuel listed allRepos outcomes fetched) :
    ∃ (stats : GlobalStats) (cache' : cachedGlobalStats),
      getGlobalStats E S fuel cache log =
        some (⟨200, .globalStats stats⟩, cache', fetched ++ [Event.Now (E.Now fetched)]) ∧
      stats.TotalRepositories = allRepos.length ∧
      stats.TopRepositoriesBySize.Perm (summaries allRepos outcomes) ∧
      stats.TotalImages = (stats.TopRepositoriesBySize.map (fun s => s.ImageCount)).sum ∧
      stats.TotalSize = wrapInt64 (stats.TopRepositoriesBySize.map (fun s => s.Size)).sum ∧
      stats.TopRepositoriesBySize.Pairwise (fun a b => a.Size ≥ b.Size) := by
  have hperm := S.perm repoSizeLess (summaries allRepos outcomes)
  refine ⟨_, _, getGlobalStats_fresh E S fuel cache log listed fetched allRepos outcomes hfresh
    hlist hfetch, rfl, hperm, ?_, ?_, ?_⟩
  · exact ((hperm.map (fun s => s.ImageCount)).sum_eq).symm
  · show wrapInt64 _ = wrapInt64 _
    rw [(hperm.map (fun s => s.Size)).sum_eq]
  · refine (S.sorted repoSizeLess (summaries allRepos outcomes)
      repoSizeLess_strictWeakOrder).imp ?_
    intro a b h
    simp only [repoSizeLess, decide_eq_false_iff_not] at h
    omega

theorem global_stats_aggregation_witness :
    summaries ["app", "db", "web"] sampleFetches = [⟨"app", 1500, 3⟩, ⟨"web", 900, 1⟩] ∧
    ∃ (stats : GlobalStats) (cache' : cachedGlobalStats) (final : List Event),
      getGlobalStats sampleEnv insertionSorter 4 cachedGlobalStats.zero [] =
        some (⟨200, .globalStats stats⟩, cache', final) ∧
      stats.TotalRepositories = 3 ∧
      stats.TopRepositoriesBySize.Perm [⟨"app", 1500, 3⟩, ⟨"web", 900, 1⟩] ∧
      stats.TotalImages = (stats.TopRepositoriesBySize.map (fun s => s.ImageCount)).sum ∧
      stats.TotalSize = wrapInt64 (stats.TopRepositoriesBySize.map (fun s => s.Size)).sum ∧
      stats.TopRepositoriesBySize.Pairwise (fun a b => a.Size ≥ b.Size) := by
  refine ⟨rfl, ?_⟩
  obtain ⟨stats, cache', h⟩ := global_stats_aggregation sampleEnv insertionSorter 4
    cachedGlobalStats.zero [] _ _ ["app", "db", "web"] sampleFetches (Or.inl rfl) rfl
    ⟨_, rfl, _, rfl, _, rfl, rfl⟩
  exact ⟨stats, cache', _, h⟩

/-- C9. Cache freshness, on the cache state `(stats, expiresAt)`: when `expiresAt` is set
and the clock reads a time strictly before it, `getGlobalStats` answers with the cached
statistics, calls the registry not at all and leaves the cache as it was. When nothing is
cached or the time is not before `expiresAt`, it runs the aggregation once: one pass over
the repository listing, then one fetch for each repository; when the listing succeeds it
answers with the new statistics, stores them and sets `expiresAt` to exactly 12 hours
after the clock reading taken when the aggregation is complete; when the listing fails
the cache stays as it was. -/
theorem cache_freshness (E : Env) (S : SliceSorter) (fuel : Nat) (cache : cachedGlobalStats)
    (log : List Event) :
    (cache.expiresAt ≠ 0 → E.Now log < cache.expiresAt →
      getGlobalStats E S fuel cache log =
        some (⟨200, .globalStats cache.stats⟩, cache, log ++ [Event.Now (E.Now log)]) ∧
      (log ++ [Event.Now (E.Now log)]).filter Event.isRemote = log.filter Event.isRemote) ∧
    (cache.expiresAt = 0 ∨ ¬ E.Now log < cache.expiresAt →
      (∀ (allRepos : List String) (outcomes : List (Except String (List ImageInfo)))
        (listed fetched : List Event),
        describeRepositoriesLoop E fuel none [] (logAfterCheck E cache log) =
          some (.ok allRepos, listed) →
        fetchesYield E fuel listed allRepos outcomes fetched →
        ∃ stats : GlobalStats,
          getGlobalStats E S fuel cache log =
            some (⟨200, .globalStats stats⟩,
              ⟨stats, E.Now fetched + 12 * 3600 * 1000000000⟩,
              fetched ++ [Event.Now (E.Now fetched)])) ∧
      (∀ (err : String) (listed : List Event),
        describeRepositoriesLoop E fuel none [] (logAfterCheck E cache log) =
          some (.error err, listed) →
        getGlobalStats E S fuel cache log =
          some (⟨500, .error ⟨"Failed to list repositories: " ++ err⟩⟩, cache, listed))) := by
  refine ⟨?_, ?_⟩
  · intro hz hlt
    refine ⟨?_, by simp [Event.isRemote]⟩
    simp [getGlobalStats, Time.IsZero, Time.Before, hz, hlt, respondJSON, StatusOK]
  · intro hfresh
    refine ⟨?_, ?_⟩
    · intro allRepos outcomes listed fetched hlist hfetch
      exact ⟨_, getGlobalStats_fresh E S fuel cache log listed fetched allRepos outcomes hfresh
        hlist hfetch⟩
    · intro err listed hlist
      have hcheck : (if Time.IsZero cache.expiresAt then (false, log)
          else (Time.Before (E.Now log) cache.expiresAt, log ++ [Event.Now (E.Now log)])) =
          (false, logAfterCheck E cache log) := by
        unfold logAfterCheck Time.IsZero Time.Before
        by_cases hz : cache.expiresAt = 0
        · simp [hz]
        · have hn : ¬ E.Now log < cache.expiresAt := hfresh.resolve_left hz
          simp [hz, hn]
      unfold getGlobalStats
      simp only [hcheck, Bool.false_eq_true, if_false, hlist]
      rfl

theorem cache_freshness_witness :
    getGlobalStats tickingEnv insertionSorter 4 ⟨staleStats, sampleNow + 1⟩ [] =
        some (⟨200, .globalStats staleStats⟩, ⟨staleStats, sampleNow + 1⟩,
          [Event.Now sampleNow]) ∧
    ∃ stats : GlobalStats,
      getGlobalStats tickingEnv insertionSorter 4 ⟨staleStats, sampleNow⟩ [] =
        some (⟨200, .globalStats stats⟩, ⟨stats, sampleNow + 8 + 12 * 3600 * 1000000000⟩,
          [Event.Now sampleNow] ++ repositoryPageEvents none repoPages ++
            imagePageEvents "app" none appPages ++
            [Event.DescribeImages ⟨some "db", some 100, none⟩
               (.error "RepositoryNotFoundException"),
             Event.DescribeImages ⟨some "web", some 100, none⟩ (.ok ⟨[imgD], none⟩),
             Event.Now (sampleNow + 8)]) :=
  ⟨((cache_freshness tickingEnv insertionSorter 4 ⟨staleStats, sampleNow + 1⟩ []).1
      (by decide) (by decide)).1,
    ((cache_freshness tickingEnv insertionSorter 4 ⟨staleStats, sampleNow⟩ []).2
      (Or.inr (by decide))).1 ["app", "db", "web"] sampleFetches _ _ rfl
      ⟨_, rfl, _, rfl, _, rfl, rfl⟩⟩

/-- Every record of a fetched inventory carries a last-pull timestamp. -/
theorem fetched_lastPull_some (E : Env) (fuel : Nat) (repoName : String)
    (log final : List Event) (images : List ImageInfo)
    (hfetch : fetchImages E fuel repoName log = some (.ok images, final)) :
    ∀ img ∈ images, ∃ t, img.LastPullDate = some t := by
  obtain ⟨evs, -, h2, -⟩ :=
    fetchImagesLoop_reported E repoName fuel none [] log images final hfetch
  simp only [List.nil_append] at h2
  intro img himg
  rw [h2, List.mem_map] at himg
  obtain ⟨d, -, rfl⟩ := himg
  exact ⟨_, (imageInfoOf_lastPull repoName d).1⟩

theorem Atoi_empty : Atoi "" = none := by decide

theorem limitOf_eq (limitStr : String) :
    limitOf limitStr = match Atoi limitStr with
      | some l => if l > 0 then l else 10
      | none => 10 := by
  unfold limitOf
  by_cases h : limitStr = ""
  · subst h; simp [Atoi_empty]
  · simp [h]

theorem slice_zero {α : Type} (l : List α) (n : Nat) : slice l 0 n = l.take n := by
  simp [slice]

theorem applyLimit_eq_take (limit : Int) (n : Nat) (hn : limit = (n : Int)) (hpos : 0 < n)
    (sorted : List ImageInfo) : applyLimit limit sorted = sorted.take n := by
  subst hn
  unfold applyLimit
  by_cases h : n < sorted.length
  · have h1 : (0 : Int) < (n : Int) ∧ (n : Int) < (sorted.length : Int) := by omega
    rw [if_pos h1, slice_zero, Int.toNat_ofNat]
  · have h1 : ¬ ((n : Int) > 0 ∧ (n : Int) < (sorted.length : Int)) := by omega
    rw [if_neg h1, List.take_of_length_le (by omega)]

/-- The two ranking handlers once the inventory is fetched. -/
theorem ranking_handlers_eq (E : Env) (S : SliceSorter) (fuel : Nat) (q : ImagesQuery)
    (log fetched : List Event) (inventory : List ImageInfo)
    (hfetch : fetchImages E fuel q.repository log = some (.ok inventory, fetched)) :
    getLargestImages E S fuel q log =
        some (⟨200, .images (applyLimit (limitOf q.limit) (S.sort sizeLess inventory))⟩,
          fetched) ∧
      getMostDownloaded E S fuel q log =
        some (⟨200, .images (applyLimit (limitOf q.limit) (S.sort lastPullLess inventory))⟩,
          fetched) := by
  have h1 := (sortBySize_spec S ⟨[inventory]⟩ 0 (by simp)).1
  have h2 := (sortByLastPullTime_spec S ⟨[inventory]⟩ 0 (by simp)).1
  have hread : (⟨[inventory]⟩ : SliceHeap).read 0 = inventory := rfl
  rw [hread] at h1 h2
  constructor
  · simp only [getLargestImages, hfetch, h1]; rfl
  · simp only [getMostDownloaded, hfetch, h2]; rfl

/-- C10 as written fails: with limit 0, or without a limit, an inventory of eleven images
is cut to ten. -/
theorem ranking_limit_counterexample :
    ∃ (inventory sorted : List ImageInfo) (fetched : List Event),
      fetchImages sampleEnv 1 "big" [] = some (.ok inventory, fetched) ∧
      inventory.length = 11 ∧
      sorted = insertionSorter.sort sizeLess inventory ∧
      getLargestImages sampleEnv insertionSorter 1 ⟨"big", "0"⟩ [] =
        some (⟨200, .images (sorted.take 10)⟩, fetched) ∧
      getLargestImages sampleEnv insertionSorter 1 ⟨"big", ""⟩ [] =
        some (⟨200, .images (sorted.take 10)⟩, fetched) ∧
      (sorted.take 10).length = 10 ∧ sorted.take 10 ≠ sorted :=
  ⟨_, _, _, rfl, rfl, rfl, rfl, rfl, rfl, by decide⟩

/-- C10, amended. For a fetched inventory of length `L`, `getLargestImages` and
`getMostDownloaded` answer with a rearrangement of the inventory in order of
non-increasing size, respectively last-pull timestamp, cut by the limit: with a requested
limit `n` such that `0 < n < L`, the first `n` elements of the sorted sequence; with
`n >= L`, `n > 0`, the whole sorted sequence; with `n = 0`, no limit, or a limit that is
not a positive number, the limit is 10: the first ten elements, which is the whole sorted
sequence when `L <= 10`. `sortBySize` and `sortByLastPullTime` return the sorted contents
in a new slice and leave the slice they are given as it was. -/
theorem ranking_with_limit (E : Env) (S : SliceSorter) (fuel : Nat) (q : ImagesQuery)
    (log fetched : List Event) (inventory : List ImageInfo)
    (hfetch : fetchImages E fuel q.repository log = some (.ok inventory, fetched)) :
    ∃ bySize byPull : List ImageInfo,
      bySize.Perm inventory ∧ bySize.Pairwise (fun a b => a.ImageSize ≥ b.ImageSize) ∧
      byPull.Perm inventory ∧
      byPull.Pairwise (fun a b => ∃ ta tb : Time,
        a.LastPullDate = some ta ∧ b.LastPullDate = some tb ∧ ta ≥ tb) ∧
      (∀ (h : SliceHeap) (images : Nat), images < h.cells.length →
        (sortBySize S h images).1.read (sortBySize S h images).2 =
            S.sort sizeLess (h.read images) ∧
          (sortBySize S h images).1.read images = h.read images ∧
        (sortByLastPullTime S h images).1.read (sortByLastPullTime S h images).2 =
            S.sort lastPullLess (h.read images) ∧
          (sortByLastPullTime S h images).1.read images = h.read images) ∧
      bySize = S.sort sizeLess inventory ∧ byPull = S.sort lastPullLess inventory ∧
      (∀ n : Nat, Atoi q.limit = some (n : Int) → 0 < n → n < inventory.length →
        getLargestImages E S fuel q log = some (⟨200, .images (bySize.take n)⟩, fetched) ∧
        getMostDownloaded E S fuel q log = some (⟨200, .images (byPull.take n)⟩, fetched)) ∧
      (∀ n : Nat, Atoi q.limit = some (n : Int) → 0 < n → inventory.length ≤ n →
        getLargestImages E S fuel q log = some (⟨200, .images bySize⟩, fetched) ∧
        getMostDownloaded E S fuel q log = some (⟨200, .images byPull⟩, fetched)) ∧
      ((∀ l : Int, Atoi q.limit = some l → l ≤ 0) →
        getLargestImages E S fuel q log = some (⟨200, .images (bySize.take 10)⟩, fetched) ∧
        getMostDownloaded E S fuel q log = some (⟨200, .images (byPull.take 10)⟩, fetched) ∧
        (inventory.length ≤ 10 → bySize.take 10 = bySize ∧ byPull.take 10 = byPull)) := by
  obtain ⟨hL, hM⟩ := ranking_handlers_eq E S fuel q log fetched inventory hfetch
  have hp1 := S.perm sizeLess inventory
  have hp2 := S.perm lastPullLess inventory
  have hinv := fetched_lastPull_some E fuel q.repository log fetched inventory hfetch
  refine ⟨S.sort sizeLess inventory, S.sort lastPullLess inventory, hp1, ?_, hp2, ?_, ?_, rfl,
    rfl, ?_, ?_, ?_⟩
  · refine (S.sorted sizeLess inventory sizeLess_strictWeakOrder).imp ?_
    intro a b h
    simp only [sizeLess, decide_eq_false_iff_not] at h
    omega
  · refine (List.Pairwise.and_mem.mp
      (S.sorted lastPullLess inventory lastPullLess_strictWeakOrder)).imp ?_
    intro a b h
    obtain ⟨ha, hb, hless⟩ := h
    obtain ⟨ta, hta⟩ := hinv a (hp2.mem_iff.mp ha)
    obtain ⟨tb, htb⟩ := hinv b (hp2.mem_iff.mp hb)
    refine ⟨ta, tb, hta, htb, ?_⟩
    simp only [lastPullLess, hta, htb, Time.After, decide_eq_false_iff_not] at hless
    exact Int.not_lt.mp hless
  · intro h images hr
    exact ⟨(sortBySize_spec S h images hr).1, (sortBySize_spec S h images hr).2,
      (sortByLastPullTime_spec S h images hr).1, (sortByLastPullTime_spec S h images hr).2⟩
  · intro n hn hpos hlt
    have hlim : limitOf q.limit = (n : Int) := by
      rw [limitOf_eq, hn]; simp; omega
    rw [hL, hM, applyLimit_eq_take _ n hlim hpos, applyLimit_eq_take _ n hlim hpos]
    exact ⟨rfl, rfl⟩
  · intro n hn hpos hge
    have hlim : limitOf q.limit = (n : Int) := by
      rw [limitOf_eq, hn]; simp; omega
    rw [hL, hM, applyLimit_eq_take _ n hlim hpos, applyLimit_eq_take _ n hlim hpos,
      List.take_of_length_le (by rw [hp1.length_eq]; exact hge),
      List.take_of_length_le (by rw [hp2.length_eq]; exact hge)]
    exact ⟨rfl, rfl⟩
  · intro hdef
    have hlim : limitOf q.limit = ((10 : Nat) : Int) := by
      rw [limitOf_eq]
      cases hA : Atoi q.limit with
      | none => rfl
      | some l =>
        have := hdef l hA
        simp; omega
    rw [hL, hM, applyLimit_eq_take _ 10 hlim (by decide), applyLimit_eq_take _ 10 hlim (by decide)]
    refine ⟨rfl, rfl, ?_⟩
    intro hle
    exact ⟨List.take_of_length_le (by rw [hp1.length_eq]; exact hle),
      List.take_of_length_le (by rw [hp2.length_eq]; exact hle)⟩

theorem ranking_with_limit_witness :
    getLargestImages sampleEnv insertionSorter 3 ⟨"app", "2"⟩ [] =
        some (⟨200, .images [imageInfoOf "app" imgB, imageInfoOf "app" imgC]⟩,
          imagePageEvents "app" none appPages) ∧
      getMostDownloaded sampleEnv insertionSorter 3 ⟨"app", "2"⟩ [] =
        some (⟨200, .images [imageInfoOf "app" imgA, imageInfoOf "app" imgC]⟩,
          imagePageEvents "app" none appPages) := by
  obtain ⟨bySize, byPull, -, -, -, -, -, h1, h2, h3, -, -⟩ :=
    ranking_with_limit sampleEnv insertionSorter 3 ⟨"app", "2"⟩ [] _ _ rfl
  subst h1 h2
  exact h3 2 (by decide) (by decide) (by decide)

end EcrOptimizer
